import Mathlib

/-! svnpath: the tree walker over a remote svn repository

A shallow embedding of `svnpath.go`: the path helper `Join`, the node type
`SvnInfo`, and the walker `Walk` / `walk`.  The two package-level collaborators
the walker calls (`SvnStat` and `readDirNames`, both of which run an external
`svn` command) are taken as the fields of an `Accessor`; the caller's `WalkFunc`
is a closure and is modelled with an explicit state.  Every run of the walker
also yields the chronological list of collaborator and visitor calls it made.

The collaborators themselves, `svnStat`, `readDirNames` and `Dirs`, are embedded
over an `ExecFn`, which stands for `execCommandContext` and the run of the
command it builds: each returns its result together with the commands it
handed over.  Both functions start a goroutine that scans stdout and return
after `cmd.Wait` without waiting for it, so a run also says how many lines the
goroutine has handled when the function returns; a panic of the scan within
those lines is the result `none`.
-/

namespace Svnpath

/-- Go `error` values of the package, compared by identity.  The three package
variables are constructors of their own; `errorf` stands for a value built by
`fmt.Errorf`, `foreign` for any error value built outside the package (the error
of `cmd.Wait`, or an error of the caller's visitor).  A nil `error` is `none` of
`Option Error`. -/
inductive Error where
  | SkipDir
  | ErrNotDirectory
  | ErrAccessForbidden
  | errorf (msg : String)
  | foreign (id : Nat)
  deriving DecidableEq, Repr

/-- The struct `SvnInfo`, the package's implementation of `SvnObject`. -/
structure SvnInfo where
  url : String
  name : String
  nodeKind : String
  revision : String
  lastChangeAuthor : String
  lastChangeRevision : String
  lastChangeDate : String
  deriving DecidableEq, Repr

/-- Method `(*SvnInfo).Name`. -/
def SvnInfo.Name (i : SvnInfo) : String := i.name

/-- Method `(*SvnInfo).IsDir`: `i.nodeKind == "directory"`. -/
def SvnInfo.IsDir (i : SvnInfo) : Bool := i.nodeKind == "directory"

/-- Function `Join(elem ...string)`: the elements from the first non-empty one on,
joined with `"/"` (`strings.Join(elem[i:], "/")`); `""` when every element is
empty. -/
def Join : List String → String
  | [] => ""
  | e :: rest => if e ≠ "" then String.intercalate "/" (e :: rest) else Join rest

deriving instance DecidableEq for Except

/-- The two collaborators the walker calls, as functions of the path they are
given: `SvnStat` (the package variable, by default `svnStat`) returns a node or
an error, never both (`svnStat` returns `nil, err` on every failure and
`&info, nil` on success); `readDirNames` returns the child names or an error. -/
structure Accessor where
  SvnStat : String → Except Error SvnInfo
  readDirNames : String → Except Error (List String)

/-- Type `WalkFunc`: the visitor.  It is a Go closure, so it may keep state of
its own: it takes its state, the path, the node (absent for a nil `SvnObject`)
and the error (absent for nil), and returns its error result and its next
state. -/
abbrev WalkFunc (σ : Type) : Type :=
  σ → String → Option SvnInfo → Option Error → Option Error × σ

/-- One call made during a walk: a call of `SvnStat`, a call of `readDirNames`,
or a call of the visitor with its three arguments and the error it returned. -/
inductive Event where
  | stat (path : String)
  | list (path : String)
  | visit (path : String) (info : Option SvnInfo) (err : Option Error) (ret : Option Error)
  deriving DecidableEq, Repr

/-- Result of running the walker with a recursion budget: `none` when the budget
is used up, otherwise the returned error, the visitor's final state and the
calls made, oldest first. -/
abbrev Outcome (σ : Type) : Type := Option (Option Error × σ × List Event)

/-- Puts the calls already made in front of the calls of a continuation. -/
def Outcome.after {σ : Type} (pre : List Event) : Outcome σ → Outcome σ
  | none => none
  | some (r, s, tr) => some (r, s, pre ++ tr)

/-- The error of a `readDirNames` result, nil on success. -/
def errOf {α : Type} : Except Error α → Option Error
  | .error e => some e
  | .ok _ => none

/-- The loop `for _, name := range names` of `walk` (lines 56-72), with the
recursive call `walk(filename, fileInfo, walkFn)` passed in as `recur`. -/
def walkNames {σ : Type} (acc : Accessor) (walkFn : WalkFunc σ)
    (recur : String → SvnInfo → σ → Outcome σ) (path : String) :
    List String → σ → Outcome σ
  | [], s => some (none, s, [])
  | name :: rest, s =>
    let filename := Join [path, name]
    match acc.SvnStat filename with
    | .error err =>
      let r := walkFn s filename none (some err)
      let calls := [Event.stat filename, Event.visit filename none (some err) r.1]
      if r.1 ≠ none ∧ r.1 ≠ some Error.SkipDir then
        some (r.1, r.2, calls)
      else
        Outcome.after calls (walkNames acc walkFn recur path rest r.2)
    | .ok fileInfo =>
      match recur filename fileInfo s with
      | none => none
      | some (err, s1, tr) =>
        if err ≠ none ∧ (fileInfo.IsDir = false ∨ err ≠ some Error.SkipDir) then
          some (err, s1, Event.stat filename :: tr)
        else
          Outcome.after (Event.stat filename :: tr) (walkNames acc walkFn recur path rest s1)

/-- Function `walk(path, info, walkFn)`: one unit of budget per recursion
level. -/
def walk {σ : Type} (acc : Accessor) (walkFn : WalkFunc σ) :
    Nat → String → SvnInfo → σ → Outcome σ
  | 0, _, _, _ => none
  | fuel + 1, path, info, s =>
    if info.IsDir = false then
      let r := walkFn s path (some info) none
      some (r.1, r.2, [Event.visit path (some info) none r.1])
    else
      let res := acc.readDirNames path
      let r := walkFn s path (some info) (errOf res)
      let calls := [Event.list path, Event.visit path (some info) (errOf res) r.1]
      match res with
      | .error _ => some (r.1, r.2, calls)
      | .ok names =>
        if r.1 ≠ none then
          some (r.1, r.2, calls)
        else
          Outcome.after calls (walkNames acc walkFn (walk acc walkFn fuel) path names r.2)

/-- Function `Walk(root, walkFn)`. -/
def Walk {σ : Type} (acc : Accessor) (walkFn : WalkFunc σ) (fuel : Nat) (root : String)
    (s : σ) : Outcome σ :=
  match acc.SvnStat root with
  | .error err =>
    let r := walkFn s root none (some err)
    some (if r.1 = some Error.SkipDir then none else r.1, r.2,
      [Event.stat root, Event.visit root none (some err) r.1])
  | .ok info =>
    match walk acc walkFn fuel root info s with
    | none => none
    | some (err, s1, tr) =>
      some (if err = some Error.SkipDir then none else err, s1, Event.stat root :: tr)

/-- The subtree below the node `path` has at most `d` levels: the walk of it
never recurses deeper than `d` calls of `walk`.  A node that is not a directory,
a directory whose listing fails and a child whose stat fails are ends of the
tree. -/
def fitsDepth (acc : Accessor) : Nat → String → SvnInfo → Bool
  | 0, _, _ => false
  | d + 1, path, info =>
    if info.IsDir = false then true
    else
      match acc.readDirNames path with
      | .error _ => true
      | .ok names =>
        names.all fun name =>
          match acc.SvnStat (Join [path, name]) with
          | .error _ => true
          | .ok fileInfo => fitsDepth acc d (Join [path, name]) fileInfo

/-- The tree served below `root` is finite, of at most `d` levels. -/
def finiteTree (acc : Accessor) (d : Nat) (root : String) : Bool :=
  match acc.SvnStat root with
  | .error _ => true
  | .ok info => fitsDepth acc d root info

/-- Depth-first pre-order of the tree served below `path`, down to `d` levels:
the node first, then, when it is a directory whose listing succeeds, the
pre-order of each child `Join(path, name)` in the order of the listing, the
whole subtree of one child before the next. -/
def preorder (acc : Accessor) : Nat → String → List String
  | 0, path => [path]
  | d + 1, path =>
    path ::
      (match acc.SvnStat path with
       | .error _ => []
       | .ok info =>
         if info.IsDir = false then []
         else
           match acc.readDirNames path with
           | .error _ => []
           | .ok names => names.flatMap fun name => preorder acc d (Join [path, name]))

/-- The reachable nodes: the root, and every child path `Join(dir, name)` of a
reachable directory whose listing succeeded. -/
inductive Reachable (acc : Accessor) (root : String) : String → Prop
  | root : Reachable acc root root
  | child {dir : String} {info : SvnInfo} {names : List String} {name : String} :
      Reachable acc root dir → acc.SvnStat dir = .ok info → info.IsDir = true →
      acc.readDirNames dir = .ok names → name ∈ names →
      Reachable acc root (Join [dir, name])

/-- The path of the node reached from `p` along the child names `r`, each step
being `Join(dir, name)`. -/
def pathOf : String → List String → String
  | p, [] => p
  | p, name :: r => pathOf (Join [p, name]) r

/-- The nodes of the tree served below `path`: the node itself (the empty list
of names), and recursively the children of each directory whose listing
succeeded; a node is named by the child names that lead to it from `path`. -/
inductive NodeAt (acc : Accessor) : String → List String → Prop
  | self (p : String) : NodeAt acc p []
  | child {p : String} {info : SvnInfo} {names : List String} {name : String}
      {r : List String} :
      acc.SvnStat p = .ok info → info.IsDir = true → acc.readDirNames p = .ok names →
      name ∈ names → NodeAt acc (Join [p, name]) r → NodeAt acc p (name :: r)

/-- The nodes of the tree served below `path`, down to `d` levels, in depth-first
pre-order, each named by the child names that lead to it from `path`. -/
def nodes (acc : Accessor) : Nat → String → List (List String)
  | 0, _ => [[]]
  | d + 1, path =>
    [] ::
      (match acc.SvnStat path with
       | .error _ => []
       | .ok info =>
         if info.IsDir = false then []
         else
           match acc.readDirNames path with
           | .error _ => []
           | .ok names =>
             names.flatMap fun name =>
               (nodes acc d (Join [path, name])).map fun r => name :: r)

/-- What the visitor is to be shown at the node `path`: no node and the stat
error when its stat fails; the node and the listing error (nil when the listing
succeeds) for a directory; the node and nil for any other node. -/
def shown (acc : Accessor) (path : String) : Option SvnInfo × Option Error :=
  match acc.SvnStat path with
  | .error e => (none, some e)
  | .ok info =>
    (some info, if info.IsDir = false then none else errOf (acc.readDirNames path))

/-- The visitor calls of a run, in order: path, node and error of each. -/
def visits : List Event → List (String × Option SvnInfo × Option Error)
  | [] => []
  | Event.visit p i e _ :: tr => (p, i, e) :: visits tr
  | _ :: tr => visits tr

/-- The paths passed to the visitor during a run, in order. -/
def visitedPaths (tr : List Event) : List String := (visits tr).map Prod.fst

/-- The paths passed to `SvnStat` during a run, in order. -/
def statPaths : List Event → List String
  | [] => []
  | Event.stat p :: tr => p :: statPaths tr
  | _ :: tr => statPaths tr

/-- The paths passed to `readDirNames` during a run, in order. -/
def listPaths : List Event → List String
  | [] => []
  | Event.list p :: tr => p :: listPaths tr
  | _ :: tr => listPaths tr

/-- A node whose only set field is its kind. -/
def mkInfo (kind : String) : SvnInfo :=
  { url := "", name := "", nodeKind := kind, revision := "", lastChangeAuthor := "",
    lastChangeRevision := "", lastChangeDate := "" }

/-- The tree `root(dir) -> [x(file), y(dir) -> [z(file)]]`; every other path
does not exist. -/
def sampleTree : Accessor where
  SvnStat := fun p =>
    if p = "root" ∨ p = "root/y" then .ok (mkInfo "directory")
    else if p = "root/x" ∨ p = "root/y/z" then .ok (mkInfo "file")
    else .error (Error.foreign 0)
  readDirNames := fun p =>
    if p = "root" then .ok ["x", "y"]
    else if p = "root/y" then .ok ["z"]
    else .error (Error.foreign 1)

/-- A visitor without state that returns nil on every call. -/
def nilVisitor : WalkFunc Unit := fun s _ _ _ => (none, s)

/-- The visitor of `TestWalkWhereAccessForbidden`: nil on `ErrAccessForbidden`,
any other error is returned, nil otherwise. -/
def forbiddenTolerant : WalkFunc Unit := fun s _ _ err =>
  if err = some Error.ErrAccessForbidden then (none, s)
  else if err ≠ none then (err, s)
  else (none, s)

/-- A repository that denies every access, as the fake command of
`TestWalkWhereAccessForbidden` does. -/
def forbiddenRepo : Accessor where
  SvnStat := fun _ => .error Error.ErrAccessForbidden
  readDirNames := fun _ => .error Error.ErrAccessForbidden

/-- A visitor that returns `SkipDir` at the path `target` and nil elsewhere. -/
def skipAt (target : String) : WalkFunc Unit := fun s p _ _ =>
  if p = target then (some Error.SkipDir, s) else (none, s)

/-- A visitor that returns the error `foreign 7` at the path `target` and nil
elsewhere. -/
def failAt (target : String) : WalkFunc Unit := fun s p _ _ =>
  if p = target then (some (Error.foreign 7), s) else (none, s)

/-- The non-empty elements joined by a single `"/"`: what the doc comment of
`Join` promises ("all empty strings are ignored"). -/
def joinNonEmpty (elem : List String) : String :=
  String.intercalate "/" (elem.filter fun e => e ≠ "")

/-- A directory `root` that can be stat'ed but whose listing is forbidden. -/
def lockedRoot : Accessor where
  SvnStat := fun p => if p = "root" then .ok (mkInfo "directory") else .error (Error.foreign 0)
  readDirNames := fun _ => .error Error.ErrAccessForbidden

/-- A directory `root` listing `gone` and `x`, where `gone` cannot be stat'ed. -/
def brokenChild : Accessor where
  SvnStat := fun p =>
    if p = "root" then .ok (mkInfo "directory")
    else if p = "root/x" then .ok (mkInfo "file")
    else .error Error.ErrAccessForbidden
  readDirNames := fun p => if p = "root" then .ok ["gone", "x"] else .error (Error.foreign 1)

/-- In the run `tr` with result `r`, a visitor call that returned an error other
than `SkipDir` is the last call of the run and its error is the result. -/
def stops (tr : List Event) (r : Option Error) : Prop :=
  ∀ (pre post : List Event) (p : String) (i : Option SvnInfo) (e : Option Error) (E : Error),
    tr = pre ++ Event.visit p i e (some E) :: post → E ≠ Error.SkipDir →
    post = [] ∧ r = some E

/-- No visitor call of the run returned an error other than `SkipDir`. -/
def quiet (tr : List Event) : Prop :=
  ∀ (p : String) (i : Option SvnInfo) (e : Option Error) (E : Error),
    Event.visit p i e (some E) ∈ tr → E = Error.SkipDir

/-- Go `strings.Replace(s, old, new, -1)` for a non-empty `old`, on the
characters of `s`: every occurrence of `old`, found from the left and not
overlapping an earlier one, is replaced by `new`.  `skip` counts the characters
of an occurrence still to be passed over. -/
def replaceGo (old new : List Char) : Nat → List Char → List Char
  | _, [] => []
  | skip + 1, _ :: cs => replaceGo old new skip cs
  | 0, c :: cs =>
    if old.isPrefixOf (c :: cs) then new ++ replaceGo old new (old.length - 1) cs
    else c :: replaceGo old new 0 cs

/-- Go `strings.Replace(s, old, new, -1)` for a non-empty `old`. -/
def stringsReplaceAll (s old new : String) : String :=
  ⟨replaceGo old.data new.data 0 s.data⟩

/-- Function `Clean(path)`: `strings.Replace(path, "\\", "/", -1)`. -/
def Clean (path : String) : String := stringsReplaceAll path "\\" "/"

/-- Go `strings.Split(s, sep)` for a non-empty `sep`, on characters: the fields
between the occurrences of `sep`, found from the left and not overlapping.
`cur` holds the current field, last character first. -/
def splitGo (sep : List Char) : Nat → List Char → List Char → List (List Char)
  | _, [], cur => [cur.reverse]
  | skip + 1, _ :: cs, cur => splitGo sep skip cs cur
  | 0, c :: cs, cur =>
    if sep.isPrefixOf (c :: cs) then cur.reverse :: splitGo sep (sep.length - 1) cs []
    else splitGo sep 0 cs (c :: cur)

/-- Go `strings.Split(s, sep)` for a non-empty `sep`. -/
def stringsSplit (s sep : String) : List String :=
  (splitGo sep.data 0 s.data []).map String.mk

/-- Go `strings.Contains(s, substr)`. -/
def stringsContains (s substr : String) : Bool :=
  s.data.tails.any fun t => substr.data.isPrefixOf t

/-- Go `strings.Trim(s, cutset)`: `s` without its leading and trailing
characters that are in `cutset`. -/
def stringsTrim (s cutset : String) : String :=
  ⟨((s.data.dropWhile fun c => cutset.data.contains c).reverse.dropWhile
      fun c => cutset.data.contains c).reverse⟩

/-- Go `a <= b` on strings: lexicographic order of the characters. -/
def lexLE : List Char → List Char → Bool
  | [], _ => true
  | _ :: _, [] => false
  | a :: as, b :: bs => decide (a.toNat < b.toNat) || (a == b && lexLE as bs)

/-- Go `sort.StringsAreSorted`: each name is at most the next one. -/
def stringsAreSorted : List String → Bool
  | a :: b :: rest => lexLE a.data b.data && stringsAreSorted (b :: rest)
  | _ => true

/-- An external command as handed to `execCommandContext`: the command name
followed by its arguments. -/
abbrev Cmd : Type := List String

/-- What one run of an external command gives back to the package: whether
`cmd.StdoutPipe` failed, the lines the command prints on stdout, how many of
them the scanning goroutine has handled when the function returns (the
function does not wait for the goroutine, and `cmd.Wait` closes the pipe it
reads from, so these may be fewer than all), the text of stderr, the error of
`cmd.Wait` (absent for nil; it is built by `os/exec`), and whether `ctx.Err()`
is `context.DeadlineExceeded` after the wait. -/
structure CmdResult where
  pipeFails : Bool
  stdout : List String
  scanned : Nat
  stderr : String
  waitErr : Option Nat
  deadlineExceeded : Bool

/-- The package variable `execCommandContext` together with the run of the
command it builds. -/
abbrev ExecFn : Type := Cmd → CmdResult

/-- The zero value `SvnInfo{}`. -/
def zeroInfo : SvnInfo :=
  { url := "", name := "", nodeKind := "", revision := "", lastChangeAuthor := "",
    lastChangeRevision := "", lastChangeDate := "" }

/-- Body of the scanning loop of `svnStat` for one line (lines 128-147): a
non-empty line is split on `": "` and, when its first field is a known key, the
second field `kv[1]` is stored.  `none` is the run-time panic of an index out of
range. -/
def setField (info : SvnInfo) (line : String) : Option SvnInfo :=
  if line ≠ "" then
    match (stringsSplit line ": ")[0]? with
    | none => none
    | some key =>
      if key = "Path" then
        (stringsSplit line ": ")[1]?.map fun v => { info with name := v }
      else if key = "URL" then
        (stringsSplit line ": ")[1]?.map fun v => { info with url := v }
      else if key = "Revision" then
        (stringsSplit line ": ")[1]?.map fun v => { info with revision := v }
      else if key = "Node Kind" then
        (stringsSplit line ": ")[1]?.map fun v => { info with nodeKind := v }
      else if key = "Last Changed Author" then
        (stringsSplit line ": ")[1]?.map fun v => { info with lastChangeAuthor := v }
      else if key = "Last Changed Rev" then
        (stringsSplit line ": ")[1]?.map fun v => { info with lastChangeRevision := v }
      else if key = "Last Changed Date" then
        (stringsSplit line ": ")[1]?.map fun v => { info with lastChangeDate := v }
      else some info
  else some info

/-- The scanning loop of `svnStat` (lines 126-148) over the lines of stdout. -/
def scanInfo : SvnInfo → List String → Option SvnInfo
  | info, [] => some info
  | info, line :: rest =>
    match setField info line with
    | none => none
    | some info1 => scanInfo info1 rest

/-- Function `svnStat(url)`: the result and the commands handed to
`execCommandContext`.  The node is `info` as the goroutine has filled it when
the function returns, from the lines it has handled by then; the result is
`none` when the scan of those lines panics. -/
def svnStat (exec : ExecFn) (url : String) : Option (Except Error SvnInfo) × List Cmd :=
  let cmd := ["svn", "info", Clean url]
  (if (exec cmd).pipeFails then
      some (.error (Error.errorf "Failed to open stdout pipe for svn info command"))
    else
      match scanInfo zeroInfo ((exec cmd).stdout.take (exec cmd).scanned) with
      | none => none
      | some info =>
        if (exec cmd).deadlineExceeded then
          some (.error (Error.errorf "svn info command timed out"))
        else
          match (exec cmd).waitErr with
          | some id =>
            if stringsContains (exec cmd).stderr "E175013" then
              some (.error Error.ErrAccessForbidden)
            else some (.error (Error.foreign id))
          | none => some (.ok info),
    [cmd])

/-- The scanning loop of `readDirNames` (lines 206-212) over the lines of
stdout. -/
def scanNames : List String → List String
  | [] => []
  | line :: rest =>
    if line ≠ "" then stringsTrim line "/" :: scanNames rest else scanNames rest

/-- Function `readDirNames(url)`: the result and the commands handed to
`execCommandContext`.  The names are `files` as the goroutine has filled it when
the function returns, from the lines it has handled by then. -/
def readDirNames (exec : ExecFn) (url : String) : Except Error (List String) × List Cmd :=
  let cmd := ["svn", "ls", url]
  (if (exec cmd).pipeFails then
      .error (Error.errorf "Failed to open stdout pipe for svn info command")
    else if (exec cmd).deadlineExceeded then
      .error (Error.errorf "svn ls command timed out")
    else
      match (exec cmd).waitErr with
      | some id =>
        if stringsContains (exec cmd).stderr "E175013" then .error Error.ErrAccessForbidden
        else .error (Error.foreign id)
      | none => .ok (scanNames ((exec cmd).stdout.take (exec cmd).scanned)),
    [cmd])

/-- Method `(*SvnInfo).Dirs`: the result and the commands handed to
`execCommandContext`. -/
def SvnInfo.Dirs (exec : ExecFn) (i : SvnInfo) : Except Error (List String) × List Cmd :=
  if i.IsDir = false then (.error Error.ErrNotDirectory, [])
  else readDirNames exec i.url

/-- The output of `svn info` in `TestSvnStat`, line by line. -/
def svnInfoRunResult : List String :=
  ["", "Path: TestRepo", "URL: https://<server>:<port>/svn/TestRepo",
   "Repository Root: https://<server>:<port>/svn/TestRepo",
   "Repository UUID: 5e88e5b6-f55b-11de-b280-d7f93031a90f", "Revision: 17954",
   "Node Kind: directory", "Last Changed Author: david", "Last Changed Rev: 17954",
   "Last Changed Date: 2017-10-24 15:20:01 -0500 (Tue, 24 Oct 2017)"]

/-- The output of `svn ls` in `TestSvnDirs`, line by line. -/
def svnLsRunResult : List String := ["trunk/", "tags/", "branches/"]

/-- The stderr text of `TestSvnStatWhereAccessForbidden`. -/
def svnStatWhereAccessForbiddenRunResult : String :=
  "svn: E175013: Unable to connect to a repository at URL 'https://<server>:<port>/svn/TestRepo'\nsvn: E175013: Access to 'https://<server>:<port>/svn/TestRepo' forbidden"

/-- A command that succeeds and prints `lines`, whatever it is asked, in a run
where the goroutine has handled the first `k` of them when the function
returns. -/
def printsUpTo (k : Nat) (lines : List String) : ExecFn := fun _ =>
  { pipeFails := false, stdout := lines, scanned := k, stderr := "", waitErr := none,
    deadlineExceeded := false }

/-- A command that succeeds and prints `lines`, whatever it is asked, in a run
where the goroutine has handled every line when the function returns. -/
def prints (lines : List String) : ExecFn := printsUpTo lines.length lines

/-- A command that fails with exit error `id` and the text `text` on stderr. -/
def failsWith (id : Nat) (text : String) : ExecFn := fun _ =>
  { pipeFails := false, stdout := [], scanned := 0, stderr := text, waitErr := some id,
    deadlineExceeded := false }

/-- A command that prints the line `URL`, fails with exit error 1 and the stderr
text of `TestSvnStatWhereAccessForbidden`, in a run where the goroutine has
handled the first `k` lines when the function returns. -/
def forbiddenAfterBareKey (k : Nat) : ExecFn := fun _ =>
  { pipeFails := false, stdout := ["URL"], scanned := k,
    stderr := svnStatWhereAccessForbiddenRunResult, waitErr := some 1,
    deadlineExceeded := false }

/-- A directory `trunk\src`, named with a backslash, whose listing is
forbidden. -/
def backslashRoot : Accessor where
  SvnStat := fun p =>
    if p = "trunk\\src" then .ok (mkInfo "directory") else .error (Error.foreign 0)
  readDirNames := fun _ => .error Error.ErrAccessForbidden

/-! ## Unfolding the walker -/

theorem walkNames_cons_error {σ : Type} (acc : Accessor) (walkFn : WalkFunc σ)
    (recur : String → SvnInfo → σ → Outcome σ) (path name : String) (rest : List String)
    (err : Error) (s : σ) (hs : acc.SvnStat (Join [path, name]) = .error err) :
    walkNames acc walkFn recur path (name :: rest) s =
      if (walkFn s (Join [path, name]) none (some err)).1 ≠ none ∧
          (walkFn s (Join [path, name]) none (some err)).1 ≠ some Error.SkipDir then
        some ((walkFn s (Join [path, name]) none (some err)).1,
          (walkFn s (Join [path, name]) none (some err)).2,
          [Event.stat (Join [path, name]),
           Event.visit (Join [path, name]) none (some err)
             (walkFn s (Join [path, name]) none (some err)).1])
      else
        Outcome.after
          [Event.stat (Join [path, name]),
           Event.visit (Join [path, name]) none (some err)
             (walkFn s (Join [path, name]) none (some err)).1]
          (walkNames acc walkFn recur path rest
            (walkFn s (Join [path, name]) none (some err)).2) := by
  simp only [walkNames, hs]

theorem walkNames_cons_ok {σ : Type} (acc : Accessor) (walkFn : WalkFunc σ)
    (recur : String → SvnInfo → σ → Outcome σ) (path name : String) (rest : List String)
    (fi : SvnInfo) (s s1 : σ) (err : Option Error) (tr : List Event)
    (hs : acc.SvnStat (Join [path, name]) = .ok fi)
    (hr : recur (Join [path, name]) fi s = some (err, s1, tr)) :
    walkNames acc walkFn recur path (name :: rest) s =
      if err ≠ none ∧ (fi.IsDir = false ∨ err ≠ some Error.SkipDir) then
        some (err, s1, Event.stat (Join [path, name]) :: tr)
      else
        Outcome.after (Event.stat (Join [path, name]) :: tr)
          (walkNames acc walkFn recur path rest s1) := by
  simp only [walkNames, hs, hr]

theorem walk_succ_leaf {σ : Type} (acc : Accessor) (walkFn : WalkFunc σ) (fuel : Nat)
    (path : String) (info : SvnInfo) (s : σ) (hdir : info.IsDir = false) :
    walk acc walkFn (fuel + 1) path info s =
      some ((walkFn s path (some info) none).1, (walkFn s path (some info) none).2,
        [Event.visit path (some info) none (walkFn s path (some info) none).1]) := by
  simp only [walk, hdir, if_true]

theorem walk_succ_dir {σ : Type} (acc : Accessor) (walkFn : WalkFunc σ) (fuel : Nat)
    (path : String) (info : SvnInfo) (names : List String) (s : σ)
    (hdir : info.IsDir = true) (hl : acc.readDirNames path = .ok names) :
    walk acc walkFn (fuel + 1) path info s =
      if (walkFn s path (some info) none).1 ≠ none then
        some ((walkFn s path (some info) none).1, (walkFn s path (some info) none).2,
          [Event.list path,
           Event.visit path (some info) none (walkFn s path (some info) none).1])
      else
        Outcome.after
          [Event.list path,
           Event.visit path (some info) none (walkFn s path (some info) none).1]
          (walkNames acc walkFn (walk acc walkFn fuel) path names
            (walkFn s path (some info) none).2) := by
  simp [walk, hdir, hl, errOf]

theorem walk_succ_list_error {σ : Type} (acc : Accessor) (walkFn : WalkFunc σ) (fuel : Nat)
    (path : String) (info : SvnInfo) (e : Error) (s : σ) (hdir : info.IsDir = true)
    (hl : acc.readDirNames path = .error e) :
    walk acc walkFn (fuel + 1) path info s =
      some ((walkFn s path (some info) (some e)).1, (walkFn s path (some info) (some e)).2,
        [Event.list path,
         Event.visit path (some info) (some e) (walkFn s path (some info) (some e)).1]) := by
  simp [walk, hdir, hl, errOf]

theorem Walk_of_walk {σ : Type} (acc : Accessor) (walkFn : WalkFunc σ) (fuel : Nat)
    (root : String) (info : SvnInfo) (s s1 : σ) (r : Option Error) (tr : List Event)
    (hs : acc.SvnStat root = .ok info)
    (hw : walk acc walkFn fuel root info s = some (r, s1, tr)) :
    Walk acc walkFn fuel root s =
      some (if r = some Error.SkipDir then none else r, s1, Event.stat root :: tr) := by
  simp only [Walk, hs, hw]

theorem Walk_of_stat_error {σ : Type} (acc : Accessor) (walkFn : WalkFunc σ) (fuel : Nat)
    (root : String) (err : Error) (s : σ) (hs : acc.SvnStat root = .error err) :
    Walk acc walkFn fuel root s =
      some (if (walkFn s root none (some err)).1 = some Error.SkipDir then none
            else (walkFn s root none (some err)).1,
        (walkFn s root none (some err)).2,
        [Event.stat root, Event.visit root none (some err) (walkFn s root none (some err)).1]) := by
  simp only [Walk, hs]

theorem fitsDepth_child {acc : Accessor} {d : Nat} {path name : String} {info fi : SvnInfo}
    {names : List String} (h : fitsDepth acc (d + 1) path info = true)
    (hdir : info.IsDir = true) (hl : acc.readDirNames path = .ok names) (hn : name ∈ names)
    (hs : acc.SvnStat (Join [path, name]) = .ok fi) :
    fitsDepth acc d (Join [path, name]) fi = true := by
  simp [fitsDepth, hdir, hl] at h
  have h1 := h name hn
  simpa [hs] using h1

/-! ## The walker, one step at a time -/

/-- C5: when the stat of the root fails with `e`, `Walk` makes one `SvnStat` call
and one visitor call, with the root, no node and `e`, makes no listing call, and
returns what the visitor returned with `SkipDir` turned into nil; so it returns
nil when the visitor returns nil, as in `TestWalkWhereAccessForbidden`. -/
theorem Walk_root_stat_fails {σ : Type} (acc : Accessor) (walkFn : WalkFunc σ) (fuel : Nat)
    (root : String) (e : Error) (s : σ) (h : acc.SvnStat root = .error e) :
    Walk acc walkFn fuel root s =
        some (if (walkFn s root none (some e)).1 = some Error.SkipDir then none
              else (walkFn s root none (some e)).1,
          (walkFn s root none (some e)).2,
          [Event.stat root, Event.visit root none (some e) (walkFn s root none (some e)).1]) ∧
      ((walkFn s root none (some e)).1 = none →
        ∃ s1 tr, Walk acc walkFn fuel root s = some (none, s1, tr) ∧
          visits tr = [(root, none, some e)] ∧ statPaths tr = [root] ∧ listPaths tr = []) ∧
      Walk forbiddenRepo forbiddenTolerant fuel root () =
        some (none, (),
          [Event.stat root, Event.visit root none (some Error.ErrAccessForbidden) none]) := by
  refine ⟨by simp [Walk, h], ?_, by simp [Walk, forbiddenRepo, forbiddenTolerant]⟩
  intro hnil
  refine ⟨(walkFn s root none (some e)).2,
    [Event.stat root, Event.visit root none (some e) none], ?_, ?_, ?_, ?_⟩
  · simp [Walk, h, hnil]
  · simp [visits]
  · simp [statPaths]
  · simp [listPaths]

theorem Walk_root_stat_fails_witness :
    forbiddenRepo.SvnStat "https://host/svn/TestRepo" = .error Error.ErrAccessForbidden ∧
      Walk forbiddenRepo (skipAt "https://host/svn/TestRepo") 0 "https://host/svn/TestRepo" () =
        some (none, (),
          [Event.stat "https://host/svn/TestRepo",
           Event.visit "https://host/svn/TestRepo" none (some Error.ErrAccessForbidden)
             (some Error.SkipDir)]) :=
  ⟨rfl, (Walk_root_stat_fails forbiddenRepo (skipAt "https://host/svn/TestRepo") 0
    "https://host/svn/TestRepo" Error.ErrAccessForbidden () rfl).1⟩

/-- C7: when the listing of a directory fails with `e`, `walk` calls the visitor
once with the path, the node and `e`, stats and visits no child whatever the
visitor returns, and returns exactly what the visitor returned; when that
directory is the root, the error is `ErrAccessForbidden` and the visitor returns
`SkipDir`, `Walk` returns nil and the root is the only node visited. -/
theorem walk_listing_fails {σ : Type} (acc : Accessor) (walkFn : WalkFunc σ) (fuel : Nat)
    (path : String) (info : SvnInfo) (e : Error) (s : σ) (hdir : info.IsDir = true)
    (hl : acc.readDirNames path = .error e) :
    walk acc walkFn (fuel + 1) path info s =
        some ((walkFn s path (some info) (some e)).1, (walkFn s path (some info) (some e)).2,
          [Event.list path,
           Event.visit path (some info) (some e) (walkFn s path (some info) (some e)).1]) ∧
      (acc.SvnStat path = .ok info → e = Error.ErrAccessForbidden →
        (walkFn s path (some info) (some e)).1 = some Error.SkipDir →
        Walk acc walkFn (fuel + 1) path s =
          some (none, (walkFn s path (some info) (some e)).2,
            [Event.stat path, Event.list path,
             Event.visit path (some info) (some Error.ErrAccessForbidden)
               (some Error.SkipDir)])) := by
  have hw : walk acc walkFn (fuel + 1) path info s =
      some ((walkFn s path (some info) (some e)).1, (walkFn s path (some info) (some e)).2,
        [Event.list path,
         Event.visit path (some info) (some e) (walkFn s path (some info) (some e)).1]) := by
    simp [walk, hdir, hl, errOf]
  refine ⟨hw, ?_⟩
  intro hs he hr
  subst he
  simp [Walk, hs, hw, hr]

theorem walk_listing_fails_witness :
    (mkInfo "directory").IsDir = true ∧
      lockedRoot.readDirNames "root" = .error Error.ErrAccessForbidden ∧
      Walk lockedRoot (skipAt "root") 1 "root" () =
        some (none, (),
          [Event.stat "root", Event.list "root",
           Event.visit "root" (some (mkInfo "directory")) (some Error.ErrAccessForbidden)
             (some Error.SkipDir)]) :=
  ⟨by decide, rfl,
    (walk_listing_fails lockedRoot (skipAt "root") 0 "root" (mkInfo "directory")
      Error.ErrAccessForbidden () (by decide) rfl).2 (by decide) rfl (by decide)⟩

/-- C8: in the loop over the names of a directory whose listing succeeded, when
the stat of the child `Join(path, name)` fails with `e` the visitor is called
with that path, no node and `e`; when it returns an error other than `SkipDir`
the loop returns that error at once, with no call for a later sibling; when it
returns nil or `SkipDir` the loop goes on with the next sibling. -/
theorem walkNames_child_stat_fails {σ : Type} (acc : Accessor) (walkFn : WalkFunc σ)
    (recur : String → SvnInfo → σ → Outcome σ) (path name : String) (rest : List String)
    (e : Error) (s : σ) (h : acc.SvnStat (Join [path, name]) = .error e) :
    ((walkFn s (Join [path, name]) none (some e)).1 ≠ none →
      (walkFn s (Join [path, name]) none (some e)).1 ≠ some Error.SkipDir →
      walkNames acc walkFn recur path (name :: rest) s =
        some ((walkFn s (Join [path, name]) none (some e)).1,
          (walkFn s (Join [path, name]) none (some e)).2,
          [Event.stat (Join [path, name]),
           Event.visit (Join [path, name]) none (some e)
             (walkFn s (Join [path, name]) none (some e)).1])) ∧
      ((walkFn s (Join [path, name]) none (some e)).1 = none ∨
          (walkFn s (Join [path, name]) none (some e)).1 = some Error.SkipDir →
        walkNames acc walkFn recur path (name :: rest) s =
          Outcome.after
            [Event.stat (Join [path, name]),
             Event.visit (Join [path, name]) none (some e)
               (walkFn s (Join [path, name]) none (some e)).1]
            (walkNames acc walkFn recur path rest
              (walkFn s (Join [path, name]) none (some e)).2)) := by
  constructor
  · intro h1 h2
    simp [walkNames, h, h1, h2]
  · intro h1
    rcases h1 with h1 | h1 <;> simp [walkNames, h, h1]

theorem walkNames_child_stat_fails_witness :
    brokenChild.SvnStat (Join ["root", "gone"]) = .error Error.ErrAccessForbidden ∧
      walkNames brokenChild (failAt "root/gone") (walk brokenChild (failAt "root/gone") 1)
          "root" ["gone", "x"] () =
        some (some (Error.foreign 7), (),
          [Event.stat "root/gone",
           Event.visit "root/gone" none (some Error.ErrAccessForbidden)
             (some (Error.foreign 7))]) :=
  ⟨by decide,
    (walkNames_child_stat_fails brokenChild (failAt "root/gone")
      (walk brokenChild (failAt "root/gone") 1) "root" "gone" ["x"]
      Error.ErrAccessForbidden () (by decide)).1 (by decide) (by decide)⟩

/-- C3: when the visitor returns `SkipDir` on a directory `D` whose listing
succeeded, `walk` of `D` makes no call below `D` (its calls are the listing of `D`
and the visit of `D`); in the loop of a parent where `D` is the child
`Join(P, name)`, the loop goes on with the siblings after `D` from the state the
visitor left, as it does after a child whose walk returned nil; and when `D` is
the root, `Walk` returns nil. -/
theorem walk_skip_directory {σ : Type} (acc : Accessor) (walkFn : WalkFunc σ) (fuel : Nat)
    (D : String) (info : SvnInfo) (names : List String) (s s1 : σ)
    (hdir : info.IsDir = true) (hl : acc.readDirNames D = .ok names)
    (hv : walkFn s D (some info) none = (some Error.SkipDir, s1)) :
    walk acc walkFn (fuel + 1) D info s =
        some (some Error.SkipDir, s1,
          [Event.list D, Event.visit D (some info) none (some Error.SkipDir)]) ∧
      (∀ (P name : String) (rest : List String), Join [P, name] = D →
        acc.SvnStat D = .ok info →
        walkNames acc walkFn (walk acc walkFn (fuel + 1)) P (name :: rest) s =
          Outcome.after
            [Event.stat D, Event.list D, Event.visit D (some info) none (some Error.SkipDir)]
            (walkNames acc walkFn (walk acc walkFn (fuel + 1)) P rest s1)) ∧
      (acc.SvnStat D = .ok info →
        Walk acc walkFn (fuel + 1) D s =
          some (none, s1,
            [Event.stat D, Event.list D,
             Event.visit D (some info) none (some Error.SkipDir)])) := by
  have hw : walk acc walkFn (fuel + 1) D info s =
      some (some Error.SkipDir, s1,
        [Event.list D, Event.visit D (some info) none (some Error.SkipDir)]) := by
    simp [walk, hdir, hl, errOf, hv]
  refine ⟨hw, ?_, ?_⟩
  · intro P name rest hj hs
    simp [walkNames, hj, hs, hw, hdir]
  · intro hs
    simp [Walk, hs, hw]

theorem walk_skip_directory_witness :
    (mkInfo "directory").IsDir = true ∧ sampleTree.readDirNames "root/y" = .ok ["z"] ∧
      skipAt "root/y" () "root/y" (some (mkInfo "directory")) none = (some Error.SkipDir, ()) ∧
      walk sampleTree (skipAt "root/y") 2 "root/y" (mkInfo "directory") () =
        some (some Error.SkipDir, (),
          [Event.list "root/y",
           Event.visit "root/y" (some (mkInfo "directory")) none (some Error.SkipDir)]) :=
  ⟨by decide, by decide, by decide,
    (walk_skip_directory sampleTree (skipAt "root/y") 1 "root/y" (mkInfo "directory") ["z"]
      () () (by decide) (by decide) (by decide)).1⟩

/-- C4 (counterexample): in the tree `root -> [x(file), y(dir) -> [z]]` the
visitor returns `SkipDir` on the file `root/x`, a child of `root` whose stat
succeeded; the walk of that child returns `SkipDir`, and the later sibling
`root/y` is neither stat'ed nor visited. -/
theorem skip_on_file_child_counterexample :
    sampleTree.readDirNames "root" = .ok ["x", "y"] ∧
      sampleTree.SvnStat (Join ["root", "x"]) = .ok (mkInfo "file") ∧
      (mkInfo "file").IsDir = false ∧
      walk sampleTree (skipAt "root/x") 2 (Join ["root", "x"]) (mkInfo "file") () =
        some (some Error.SkipDir, (),
          [Event.visit "root/x" (some (mkInfo "file")) none (some Error.SkipDir)]) ∧
      ∃ tr, Walk sampleTree (skipAt "root/x") 3 "root" () = some (none, (), tr) ∧
        Join ["root", "y"] ∉ statPaths tr ∧ Join ["root", "y"] ∉ visitedPaths tr := by
  refine ⟨by decide, by decide, by decide, by decide,
    [Event.stat "root", Event.list "root",
     Event.visit "root" (some (mkInfo "directory")) none none,
     Event.stat "root/x",
     Event.visit "root/x" (some (mkInfo "file")) none (some Error.SkipDir)], ?_, ?_, ?_⟩ <;>
  decide

/-- C4 (amended): for a directory whose listing succeeded and a child whose stat
succeeded, when the recursive walk of that child returns `SkipDir` and the child
is a directory, the loop goes on with the next sibling; when the child is not a
directory, the loop returns `SkipDir` at once. -/
theorem walkNames_child_returns_skip {σ : Type} (acc : Accessor) (walkFn : WalkFunc σ)
    (fuel : Nat) (path name : String) (rest : List String) (fileInfo : SvnInfo) (s s1 : σ)
    (tr : List Event) (hs : acc.SvnStat (Join [path, name]) = .ok fileInfo)
    (hr : walk acc walkFn fuel (Join [path, name]) fileInfo s =
      some (some Error.SkipDir, s1, tr)) :
    (fileInfo.IsDir = true →
      walkNames acc walkFn (walk acc walkFn fuel) path (name :: rest) s =
        Outcome.after (Event.stat (Join [path, name]) :: tr)
          (walkNames acc walkFn (walk acc walkFn fuel) path rest s1)) ∧
      (fileInfo.IsDir = false →
        walkNames acc walkFn (walk acc walkFn fuel) path (name :: rest) s =
          some (some Error.SkipDir, s1, Event.stat (Join [path, name]) :: tr)) := by
  constructor
  · intro hd
    simp [walkNames, hs, hr, hd]
  · intro hd
    simp [walkNames, hs, hr, hd]

theorem walkNames_child_returns_skip_witness :
    sampleTree.SvnStat (Join ["root", "y"]) = .ok (mkInfo "directory") ∧
      walk sampleTree (skipAt "root/y") 2 (Join ["root", "y"]) (mkInfo "directory") () =
        some (some Error.SkipDir, (),
          [Event.list "root/y",
           Event.visit "root/y" (some (mkInfo "directory")) none (some Error.SkipDir)]) ∧
      walkNames sampleTree (skipAt "root/y") (walk sampleTree (skipAt "root/y") 2) "root"
          ["y", "x"] () =
        Outcome.after
          [Event.stat (Join ["root", "y"]), Event.list "root/y",
           Event.visit "root/y" (some (mkInfo "directory")) none (some Error.SkipDir)]
          (walkNames sampleTree (skipAt "root/y") (walk sampleTree (skipAt "root/y") 2) "root"
            ["x"] ()) :=
  ⟨by decide, by decide,
    (walkNames_child_returns_skip sampleTree (skipAt "root/y") 2 "root" "y" ["x"]
      (mkInfo "directory") () ()
      [Event.list "root/y",
       Event.visit "root/y" (some (mkInfo "directory")) none (some Error.SkipDir)]
      (by decide) (by decide)).1 (by decide)⟩

/-! ## Abort on an error of the visitor -/

theorem quiet_nil : quiet [] := by
  intro p i e E h
  cases h

theorem quiet_stat (f : String) : quiet [Event.stat f] := by
  intro p i e E h
  simp at h

theorem quiet_list (f : String) : quiet [Event.list f] := by
  intro p i e E h
  simp at h

theorem quiet_append {a b : List Event} (ha : quiet a) (hb : quiet b) : quiet (a ++ b) := by
  intro p i e E h
  rcases List.mem_append.mp h with h | h
  · exact ha p i e E h
  · exact hb p i e E h

theorem quiet_visit (p : String) (i : Option SvnInfo) (e r : Option Error)
    (hr : r = none ∨ r = some Error.SkipDir) : quiet [Event.visit p i e r] := by
  intro p' i' e' E h
  simp at h
  rcases hr with hr | hr
  · rw [hr] at h; cases h.2.2.2
  · rw [hr] at h
    exact Option.some.inj h.2.2.2

theorem quiet_of_stops {tr : List Event} {r : Option Error} (h : stops tr r)
    (hr : r = none ∨ r = some Error.SkipDir) : quiet tr := by
  intro p i e E hmem
  by_contra hE
  obtain ⟨pre, post, hsplit⟩ := List.append_of_mem hmem
  have h2 := (h pre post p i e E hsplit hE).2
  rcases hr with hr | hr
  · rw [hr] at h2; cases h2
  · rw [hr] at h2
    injection h2 with h3
    exact hE h3.symm

theorem stops_append {pre tr : List Event} {r : Option Error} (hq : quiet pre)
    (h : stops tr r) : stops (pre ++ tr) r := by
  intro a post p i e E hsplit hE
  rcases List.append_eq_append_iff.mp hsplit with ⟨a', ha, htr⟩ | ⟨c', hpre, hc⟩
  · exact h a' post p i e E htr hE
  · cases c' with
    | nil =>
      simp at hc
      exact h [] post p i e E (by simpa using hc.symm) hE
    | cons x c'' =>
      simp at hc
      have hx : Event.visit p i e (some E) ∈ pre := by
        rw [hpre, ← hc.1]; simp
      exact absurd (hq p i e E hx) hE

theorem stops_of_quiet {tr : List Event} (r : Option Error) (hq : quiet tr) : stops tr r := by
  intro pre post p i e E hsplit hE
  have hx : Event.visit p i e (some E) ∈ tr := by rw [hsplit]; simp
  exact absurd (hq p i e E hx) hE

theorem stops_visit_last (pre : List Event) (hq : quiet pre) (p : String)
    (i : Option SvnInfo) (e r : Option Error) : stops (pre ++ [Event.visit p i e r]) r := by
  intro a post p' i' e' E hsplit hE
  rcases List.eq_nil_or_concat post with hp | ⟨post', w, hp⟩
  · subst hp
    have h1 := List.append_inj_right' hsplit (by simp)
    simp at h1
    exact ⟨rfl, h1.2.2.2⟩
  · subst hp
    have h0 : pre ++ [Event.visit p i e r] =
        (a ++ Event.visit p' i' e' (some E) :: post') ++ [w] := by
      rw [hsplit]; simp
    have h1 := List.append_inj_left' h0 (by simp)
    have hx : Event.visit p' i' e' (some E) ∈ pre := by rw [h1]; simp
    exact absurd (hq p' i' e' E hx) hE

theorem walkNames_stops {σ : Type} (acc : Accessor) (walkFn : WalkFunc σ)
    (recur : String → SvnInfo → σ → Outcome σ) (path : String) (names : List String)
    (h : ∀ name ∈ names, ∀ fi, acc.SvnStat (Join [path, name]) = .ok fi → ∀ s,
      ∃ r s1 tr, recur (Join [path, name]) fi s = some (r, s1, tr) ∧ stops tr r) :
    ∀ s, ∃ r s1 tr, walkNames acc walkFn recur path names s = some (r, s1, tr) ∧ stops tr r := by
  induction names with
  | nil =>
    intro s
    exact ⟨none, s, [], rfl, stops_of_quiet none quiet_nil⟩
  | cons name rest ih =>
    intro s
    have ih1 := ih (fun n hn => h n (List.mem_cons_of_mem _ hn))
    cases hs : acc.SvnStat (Join [path, name]) with
    | error err =>
      have hu := walkNames_cons_error acc walkFn recur path name rest err s hs
      by_cases hf : (walkFn s (Join [path, name]) none (some err)).1 ≠ none ∧
          (walkFn s (Join [path, name]) none (some err)).1 ≠ some Error.SkipDir
      · rw [if_pos hf] at hu
        exact ⟨_, _, _, hu,
          stops_visit_last [Event.stat (Join [path, name])] (quiet_stat _) _ _ _ _⟩
      · rw [if_neg hf] at hu
        obtain ⟨r, s1, tr, hw, hst⟩ := ih1 (walkFn s (Join [path, name]) none (some err)).2
        rw [hw] at hu
        refine ⟨r, s1, _, hu, ?_⟩
        apply stops_append _ hst
        exact quiet_append (quiet_stat (Join [path, name]))
          (quiet_visit (Join [path, name]) none (some err)
            (walkFn s (Join [path, name]) none (some err)).1 (by tauto))
    | ok fi =>
      obtain ⟨err, s1, tr, hrec, hst⟩ := h name (List.mem_cons_self _ _) fi hs s
      have hu := walkNames_cons_ok acc walkFn recur path name rest fi s s1 err tr hs hrec
      by_cases hf : err ≠ none ∧ (fi.IsDir = false ∨ err ≠ some Error.SkipDir)
      · rw [if_pos hf] at hu
        exact ⟨err, s1, _, hu, stops_append (quiet_stat (Join [path, name])) hst⟩
      · rw [if_neg hf] at hu
        obtain ⟨r, s2, tr2, hw, hst2⟩ := ih1 s1
        rw [hw] at hu
        refine ⟨r, s2, _, hu, ?_⟩
        apply stops_append _ hst2
        exact quiet_append (quiet_stat (Join [path, name])) (quiet_of_stops hst (by tauto))

theorem walk_stops {σ : Type} (acc : Accessor) (walkFn : WalkFunc σ) (d : Nat) :
    ∀ (path : String) (info : SvnInfo), fitsDepth acc d path info = true → ∀ s,
      ∃ r s1 tr, walk acc walkFn d path info s = some (r, s1, tr) ∧ stops tr r := by
  induction d with
  | zero =>
    intro path info h
    simp [fitsDepth] at h
  | succ d ih =>
    intro path info h s
    by_cases hdir : info.IsDir = false
    · exact ⟨_, _, _, walk_succ_leaf acc walkFn d path info s hdir,
        stops_visit_last [] quiet_nil _ _ _ _⟩
    · have hdir1 : info.IsDir = true := by simpa using hdir
      cases hl : acc.readDirNames path with
      | error e =>
        exact ⟨_, _, _, walk_succ_list_error acc walkFn d path info e s hdir1 hl,
          stops_visit_last [Event.list path] (quiet_list _) _ _ _ _⟩
      | ok names =>
        have hu := walk_succ_dir acc walkFn d path info names s hdir1 hl
        by_cases hr : (walkFn s path (some info) none).1 ≠ none
        · rw [if_pos hr] at hu
          exact ⟨_, _, _, hu, stops_visit_last [Event.list path] (quiet_list _) _ _ _ _⟩
        · rw [if_neg hr] at hu
          obtain ⟨r, s1, tr, hw, hst⟩ :=
            walkNames_stops acc walkFn (walk acc walkFn d) path names
              (fun name hn fi hs s => ih (Join [path, name]) fi
                (fitsDepth_child h hdir1 hl hn hs) s)
              (walkFn s path (some info) none).2
          rw [hw] at hu
          refine ⟨r, s1, _, hu, ?_⟩
          apply stops_append _ hst
          exact quiet_append (quiet_list path)
            (quiet_visit path (some info) none _ (Or.inl (by simpa using hr)))

/-- C2: on a finite tree, for every visitor, `Walk` returns, and when some
visitor call of the run returned an error `E` other than nil and `SkipDir`, no
call of `SvnStat`, `readDirNames` or the visitor follows it and `Walk` returns
exactly `E`. -/
theorem Walk_visitor_error_aborts {σ : Type} (acc : Accessor) (walkFn : WalkFunc σ) (d : Nat)
    (root : String) (s : σ) (hfin : finiteTree acc d root = true) :
    ∃ r s1 tr, Walk acc walkFn d root s = some (r, s1, tr) ∧
      ∀ (pre post : List Event) (p : String) (i : Option SvnInfo) (e : Option Error)
        (E : Error), tr = pre ++ Event.visit p i e (some E) :: post → E ≠ Error.SkipDir →
        post = [] ∧ r = some E := by
  cases hs : acc.SvnStat root with
  | error err =>
    refine ⟨_, _, _, Walk_of_stat_error acc walkFn d root err s hs, ?_⟩
    intro pre post p i e E hsplit hE
    have h := stops_visit_last [Event.stat root] (quiet_stat root) root none (some err)
      (walkFn s root none (some err)).1 pre post p i e E (by simpa using hsplit) hE
    refine ⟨h.1, ?_⟩
    rw [h.2]
    simp [hE]
  | ok info =>
    have hfd : fitsDepth acc d root info = true := by simpa [finiteTree, hs] using hfin
    obtain ⟨r, s1, tr, hw, hst⟩ := walk_stops acc walkFn d root info hfd s
    refine ⟨_, s1, Event.stat root :: tr, Walk_of_walk acc walkFn d root info s s1 r tr hs hw, ?_⟩
    intro pre post p i e E hsplit hE
    have h := stops_append (quiet_stat root) hst pre post p i e E (by simpa using hsplit) hE
    refine ⟨h.1, ?_⟩
    rw [h.2]
    simp [hE]

theorem Walk_visitor_error_aborts_witness :
    finiteTree sampleTree 3 "root" = true ∧
      ∃ r s1 tr, Walk sampleTree (failAt "root/x") 3 "root" () = some (r, s1, tr) ∧
        ∀ (pre post : List Event) (p : String) (i : Option SvnInfo) (e : Option Error)
          (E : Error), tr = pre ++ Event.visit p i e (some E) :: post → E ≠ Error.SkipDir →
          post = [] ∧ r = some E :=
  ⟨by decide, Walk_visitor_error_aborts sampleTree (failAt "root/x") 3 "root" () (by decide)⟩

/-! ## A visitor that always returns nil -/

theorem visits_append (a b : List Event) : visits (a ++ b) = visits a ++ visits b := by
  induction a with
  | nil => rfl
  | cons x a ih =>
    cases x <;> simp [visits, ih]

theorem preorder_of_stat_error {acc : Accessor} {p : String} {e : Error} (d : Nat)
    (h : acc.SvnStat p = .error e) : preorder acc d p = [p] := by
  cases d <;> simp [preorder, h]

theorem shown_of_stat_error {acc : Accessor} {p : String} {e : Error}
    (h : acc.SvnStat p = .error e) : shown acc p = (none, some e) := by
  simp [shown, h]

theorem mem_preorder_self (acc : Accessor) (d : Nat) (p : String) : p ∈ preorder acc d p := by
  cases d <;> simp [preorder]

theorem walkNames_nil_visits {σ : Type} (acc : Accessor) (walkFn : WalkFunc σ)
    (hnil : ∀ s p i e, (walkFn s p i e).1 = none)
    (recur : String → SvnInfo → σ → Outcome σ) (d : Nat) (path : String)
    (names : List String)
    (h : ∀ name ∈ names, ∀ fi, acc.SvnStat (Join [path, name]) = .ok fi → ∀ s,
      ∃ s1 tr, recur (Join [path, name]) fi s = some (none, s1, tr) ∧
        visits tr = (preorder acc d (Join [path, name])).map fun p => (p, shown acc p)) :
    ∀ s, ∃ s1 tr, walkNames acc walkFn recur path names s = some (none, s1, tr) ∧
      visits tr =
        (names.flatMap fun name => preorder acc d (Join [path, name])).map
          fun p => (p, shown acc p) := by
  induction names with
  | nil =>
    intro s
    exact ⟨s, [], rfl, rfl⟩
  | cons name rest ih =>
    intro s
    have ih1 := ih (fun n hn => h n (List.mem_cons_of_mem _ hn))
    cases hs : acc.SvnStat (Join [path, name]) with
    | error err =>
      have hu := walkNames_cons_error acc walkFn recur path name rest err s hs
      have hr := hnil s (Join [path, name]) none (some err)
      rw [if_neg (by simp [hr])] at hu
      obtain ⟨s1, tr, hw, hv⟩ := ih1 (walkFn s (Join [path, name]) none (some err)).2
      rw [hw] at hu
      refine ⟨s1, _, hu, ?_⟩
      rw [visits_append, hv, List.flatMap_cons, List.map_append,
        preorder_of_stat_error d hs]
      simp [visits, shown_of_stat_error hs]
    | ok fi =>
      obtain ⟨s1, tr, hrec, hv⟩ := h name (List.mem_cons_self _ _) fi hs s
      have hu := walkNames_cons_ok acc walkFn recur path name rest fi s s1 none tr hs hrec
      rw [if_neg (by simp)] at hu
      obtain ⟨s2, tr2, hw, hv2⟩ := ih1 s1
      rw [hw] at hu
      refine ⟨s2, _, hu, ?_⟩
      rw [visits_append, hv2, List.flatMap_cons, List.map_append]
      simp [visits, hv]

theorem walk_nil_visits {σ : Type} (acc : Accessor) (walkFn : WalkFunc σ)
    (hnil : ∀ s p i e, (walkFn s p i e).1 = none) (d : Nat) :
    ∀ (path : String) (info : SvnInfo), acc.SvnStat path = .ok info →
      fitsDepth acc d path info = true → ∀ s,
      ∃ s1 tr, walk acc walkFn d path info s = some (none, s1, tr) ∧
        visits tr = (preorder acc d path).map fun p => (p, shown acc p) := by
  induction d with
  | zero =>
    intro path info _ h
    simp [fitsDepth] at h
  | succ d ih =>
    intro path info hs h s
    by_cases hdir : info.IsDir = false
    · have hu := walk_succ_leaf acc walkFn d path info s hdir
      rw [hnil s path (some info) none] at hu
      refine ⟨_, _, hu, ?_⟩
      simp [visits, preorder, hs, hdir, shown]
    · have hdir1 : info.IsDir = true := by simpa using hdir
      cases hl : acc.readDirNames path with
      | error e =>
        have hu := walk_succ_list_error acc walkFn d path info e s hdir1 hl
        rw [hnil s path (some info) (some e)] at hu
        refine ⟨_, _, hu, ?_⟩
        simp [visits, preorder, hs, hdir1, hl, shown, errOf]
      | ok names =>
        have hu := walk_succ_dir acc walkFn d path info names s hdir1 hl
        have hr := hnil s path (some info) none
        rw [if_neg (by simp [hr])] at hu
        obtain ⟨s1, tr, hw, hv⟩ :=
          walkNames_nil_visits acc walkFn hnil (walk acc walkFn d) d path names
            (fun name hn fi hsc s => ih (Join [path, name]) fi hsc
              (fitsDepth_child h hdir1 hl hn hsc) s)
            (walkFn s path (some info) none).2
        rw [hw] at hu
        refine ⟨s1, _, hu, ?_⟩
        rw [visits_append, hv]
        simp [visits, preorder, hs, hdir1, hl, shown, errOf]

theorem Walk_nil_visits {σ : Type} (acc : Accessor) (walkFn : WalkFunc σ)
    (hnil : ∀ s p i e, (walkFn s p i e).1 = none) (d : Nat) (root : String)
    (hfin : finiteTree acc d root = true) (s : σ) :
    ∃ s1 tr, Walk acc walkFn d root s = some (none, s1, tr) ∧
      visits tr = (preorder acc d root).map fun p => (p, shown acc p) := by
  cases hs : acc.SvnStat root with
  | error err =>
    have hu := Walk_of_stat_error acc walkFn d root err s hs
    rw [hnil s root none (some err)] at hu
    refine ⟨_, _, hu, ?_⟩
    simp [visits, preorder_of_stat_error d hs, shown_of_stat_error hs]
  | ok info =>
    have hfd : fitsDepth acc d root info = true := by simpa [finiteTree, hs] using hfin
    obtain ⟨s1, tr, hw, hv⟩ := walk_nil_visits acc walkFn hnil d root info hs hfd s
    have hu := Walk_of_walk acc walkFn d root info s s1 none tr hs hw
    refine ⟨s1, _, hu, ?_⟩
    simpa [visits] using hv

/-! ## The pre-order lists the reachable nodes -/

theorem reachable_of_mem_preorder (acc : Accessor) (root : String) (d : Nat) :
    ∀ (path p : String), Reachable acc root path → p ∈ preorder acc d path →
      Reachable acc root p := by
  induction d with
  | zero =>
    intro path p hr hp
    simp [preorder] at hp
    rw [hp]; exact hr
  | succ d ih =>
    intro path p hr hp
    rw [preorder, List.mem_cons] at hp
    rcases hp with hp | hp
    · rw [hp]; exact hr
    · cases hs : acc.SvnStat path with
      | error e => simp [hs] at hp
      | ok info =>
        by_cases hdir : info.IsDir = false
        · simp [hs, hdir] at hp
        · have hdir1 : info.IsDir = true := by simpa using hdir
          cases hl : acc.readDirNames path with
          | error e => simp [hs, hdir1, hl] at hp
          | ok names =>
            simp only [hs, hdir1, hl] at hp
            simp only [Bool.true_eq_false, if_false, List.mem_flatMap] at hp
            obtain ⟨name, hn, hmem⟩ := hp
            exact ih (Join [path, name]) p (Reachable.child hr hs hdir1 hl hn) hmem

theorem mem_preorder_child (acc : Accessor) (d : Nat) :
    ∀ (root : String) (info : SvnInfo), acc.SvnStat root = .ok info →
      fitsDepth acc d root info = true →
      ∀ (dir name : String) (dinfo : SvnInfo) (names : List String),
        dir ∈ preorder acc d root → acc.SvnStat dir = .ok dinfo → dinfo.IsDir = true →
        acc.readDirNames dir = .ok names → name ∈ names →
        Join [dir, name] ∈ preorder acc d root := by
  induction d with
  | zero =>
    intro root info _ h
    simp [fitsDepth] at h
  | succ d ih =>
    intro root info hs hfd dir name dinfo names hmem hsd hdd hld hn
    rw [preorder, List.mem_cons] at hmem
    rw [preorder, List.mem_cons]
    right
    rcases hmem with hmem | hmem
    · subst hmem
      simp only [hsd, hdd, hld]
      simp only [Bool.true_eq_false, if_false, List.mem_flatMap]
      exact ⟨name, hn, mem_preorder_self acc d _⟩
    · by_cases hdir : info.IsDir = false
      · simp [hs, hdir] at hmem
      · have hdir1 : info.IsDir = true := by simpa using hdir
        cases hl : acc.readDirNames root with
        | error e => simp [hs, hdir1, hl] at hmem
        | ok rnames =>
          simp only [hs, hdir1, hl] at hmem ⊢
          simp only [Bool.true_eq_false, if_false, List.mem_flatMap] at hmem ⊢
          obtain ⟨n, hnr, hin⟩ := hmem
          refine ⟨n, hnr, ?_⟩
          cases hsc : acc.SvnStat (Join [root, n]) with
          | error e =>
            rw [preorder_of_stat_error d hsc] at hin
            simp at hin
            rw [hin, hsc] at hsd
            cases hsd
          | ok fi =>
            exact ih (Join [root, n]) fi hsc (fitsDepth_child hfd hdir1 hl hnr hsc)
              dir name dinfo names hin hsd hdd hld hn

theorem reachable_of_stat_error {acc : Accessor} {root p : String} {e : Error}
    (hs : acc.SvnStat root = .error e) (h : Reachable acc root p) : p = root := by
  induction h with
  | root => rfl
  | child _ hsd _ _ _ ih =>
    rw [ih, hs] at hsd
    cases hsd

theorem mem_preorder_iff_reachable (acc : Accessor) (d : Nat) (root : String)
    (hfin : finiteTree acc d root = true) (p : String) :
    p ∈ preorder acc d root ↔ Reachable acc root p := by
  constructor
  · intro hp
    exact reachable_of_mem_preorder acc root d root p Reachable.root hp
  · intro hr
    cases hs : acc.SvnStat root with
    | error e =>
      rw [reachable_of_stat_error hs hr]
      exact mem_preorder_self acc d root
    | ok info =>
      have hfd : fitsDepth acc d root info = true := by simpa [finiteTree, hs] using hfin
      induction hr with
      | root => exact mem_preorder_self acc d root
      | child _ hsd hdd hld hn ih =>
        exact mem_preorder_child acc d root info hs hfd _ _ _ _ ih hsd hdd hld hn

theorem nodes_map_pathOf (acc : Accessor) (d : Nat) :
    ∀ p : String, (nodes acc d p).map (pathOf p) = preorder acc d p := by
  induction d with
  | zero =>
    intro p
    simp [nodes, preorder, pathOf]
  | succ d ih =>
    intro p
    cases hs : acc.SvnStat p with
    | error e => simp [nodes, preorder, pathOf, hs]
    | ok info =>
      by_cases hdir : info.IsDir = false
      · simp [nodes, preorder, pathOf, hs, hdir]
      · have hdir1 : info.IsDir = true := by simpa using hdir
        cases hl : acc.readDirNames p with
        | error e => simp [nodes, preorder, pathOf, hs, hdir1, hl]
        | ok names =>
          simp only [nodes, preorder, hs, hdir1, hl, List.map_cons, pathOf]
          simp only [Bool.true_eq_false, if_false, List.map_flatMap, List.map_map]
          congr 1
          congr 1
          funext name
          rw [← ih (Join [p, name])]
          rfl

theorem nodes_nodup (acc : Accessor) (d : Nat) :
    ∀ p : String,
      (∀ r names, NodeAt acc p r → acc.readDirNames (pathOf p r) = .ok names →
        names.Nodup) →
      (nodes acc d p).Nodup := by
  induction d with
  | zero =>
    intro p _
    simp [nodes]
  | succ d ih =>
    intro p hnames
    rw [nodes, List.nodup_cons]
    cases hs : acc.SvnStat p with
    | error e => simp
    | ok info =>
      by_cases hdir : info.IsDir = false
      · simp [hdir]
      · have hdir1 : info.IsDir = true := by simpa using hdir
        cases hl : acc.readDirNames p with
        | error e => simp [hdir1]
        | ok names =>
          simp only [hdir1, Bool.true_eq_false, if_false]
          constructor
          · intro hmem
            obtain ⟨name, _, hin⟩ := List.mem_flatMap.mp hmem
            obtain ⟨r, _, hr⟩ := List.mem_map.mp hin
            cases hr
          · rw [List.nodup_flatMap]
            constructor
            · intro name hn
              apply List.Nodup.map _
                (ih (Join [p, name]) fun r nm hr hlr =>
                  hnames (name :: r) nm (NodeAt.child hs hdir1 hl hn hr) hlr)
              intro a b hab
              exact List.tail_eq_of_cons_eq hab
            · apply List.Pairwise.imp _ (hnames [] names (NodeAt.self p) hl)
              intro n1 n2 hne x h1 h2
              obtain ⟨r1, _, hr1⟩ := List.mem_map.mp h1
              obtain ⟨r2, _, hr2⟩ := List.mem_map.mp h2
              rw [← hr2] at hr1
              exact hne (List.head_eq_of_cons_eq hr1)

theorem nodeAt_of_mem_nodes (acc : Accessor) (d : Nat) :
    ∀ (p : String) (r : List String), r ∈ nodes acc d p → NodeAt acc p r := by
  induction d with
  | zero =>
    intro p r h
    simp [nodes] at h
    rw [h]
    exact NodeAt.self p
  | succ d ih =>
    intro p r h
    rw [nodes, List.mem_cons] at h
    rcases h with h | h
    · rw [h]
      exact NodeAt.self p
    · cases hs : acc.SvnStat p with
      | error e => simp [hs] at h
      | ok info =>
        by_cases hdir : info.IsDir = false
        · simp [hs, hdir] at h
        · have hdir1 : info.IsDir = true := by simpa using hdir
          cases hl : acc.readDirNames p with
          | error e => simp [hs, hdir1, hl] at h
          | ok names =>
            simp only [hs, hdir1, hl] at h
            simp only [Bool.true_eq_false, if_false, List.mem_flatMap, List.mem_map] at h
            obtain ⟨name, hn, r1, hr1, hr⟩ := h
            rw [← hr]
            exact NodeAt.child hs hdir1 hl hn (ih (Join [p, name]) r1 hr1)

theorem mem_nodes_of_nodeAt (acc : Accessor) (p : String) (r : List String)
    (h : NodeAt acc p r) : ∀ d, finiteTree acc d p = true → r ∈ nodes acc d p := by
  induction h with
  | self p =>
    intro d _
    cases d <;> simp [nodes]
  | @child p info names name r hs hdir hl hn _ ih =>
    intro d hfin
    have hfd : fitsDepth acc d p info = true := by simpa [finiteTree, hs] using hfin
    cases d with
    | zero => simp [fitsDepth] at hfd
    | succ d =>
      have hc : finiteTree acc d (Join [p, name]) = true := by
        cases hsc : acc.SvnStat (Join [p, name]) with
        | error e => simp [finiteTree, hsc]
        | ok fi =>
          simpa [finiteTree, hsc] using fitsDepth_child hfd hdir hl hn hsc
      rw [nodes, List.mem_cons]
      right
      simp only [hs, hdir, hl]
      simp only [Bool.true_eq_false, if_false, List.mem_flatMap, List.mem_map]
      exact ⟨name, hn, r, ih d hc, rfl⟩

/-- C1: on a finite tree where the names of one listing are distinct, with a
visitor that returns nil on every call whatever error it is shown, `Walk`
returns nil and makes exactly one visitor call for every reachable node: the
reachable nodes (the root, and recursively every child `Join(dir, name)` of a
directory whose listing succeeded) form the list `nodes` without repetition, and
the visitor calls are, node by node, the path of the node with what `shown`
gives for it (no node and the stat error when its stat failed, the node and the
listing error when it is a directory whose listing failed).  The visited paths
are the reachable paths, and each is visited exactly once when no two nodes
have the same path. -/
theorem Walk_visits_every_reachable_node_once {σ : Type} (acc : Accessor)
    (walkFn : WalkFunc σ) (d : Nat) (root : String) (s : σ)
    (hnil : ∀ s p i e, (walkFn s p i e).1 = none)
    (hfin : finiteTree acc d root = true)
    (hnames : ∀ r names, NodeAt acc root r →
      acc.readDirNames (pathOf root r) = .ok names → names.Nodup) :
    ∃ s1 tr, Walk acc walkFn d root s = some (none, s1, tr) ∧
      (nodes acc d root).Nodup ∧
      (∀ r, r ∈ nodes acc d root ↔ NodeAt acc root r) ∧
      visits tr =
        (nodes acc d root).map (fun r => (pathOf root r, shown acc (pathOf root r))) ∧
      (∀ p, p ∈ visitedPaths tr ↔ Reachable acc root p) ∧
      (((nodes acc d root).map (pathOf root)).Nodup →
        ∀ p, Reachable acc root p → (visitedPaths tr).count p = 1) := by
  obtain ⟨s1, tr, hw, hv⟩ := Walk_nil_visits acc walkFn hnil d root hfin s
  have hpaths : visitedPaths tr = preorder acc d root := by
    simp [visitedPaths, hv, Function.comp_def]
  refine ⟨s1, tr, hw, nodes_nodup acc d root hnames, ?_, ?_, ?_, ?_⟩
  · intro r
    exact ⟨nodeAt_of_mem_nodes acc d root r, fun h => mem_nodes_of_nodeAt acc root r h d hfin⟩
  · rw [hv, ← nodes_map_pathOf acc d root, List.map_map]
    rfl
  · intro p
    rw [hpaths]
    exact mem_preorder_iff_reachable acc d root hfin p
  · intro htree p hr
    rw [nodes_map_pathOf] at htree
    rw [hpaths]
    exact List.count_eq_one_of_mem htree
      ((mem_preorder_iff_reachable acc d root hfin p).mpr hr)

theorem brokenChild_names_nodup (dir : String) (names : List String)
    (h : brokenChild.readDirNames dir = .ok names) : names.Nodup := by
  by_cases hd : dir = "root"
  · subst hd
    have h1 : names = ["gone", "x"] := by
      have h2 : (Except.ok ["gone", "x"] : Except Error (List String)) = .ok names := h
      injection h2 with h3
      exact h3.symm
    rw [h1]
    decide
  · simp [brokenChild, hd] at h

theorem Walk_visits_every_reachable_node_once_witness :
    (∀ s p i e, (nilVisitor s p i e).1 = none) ∧ finiteTree brokenChild 2 "root" = true ∧
      (∀ r names, NodeAt brokenChild "root" r →
        brokenChild.readDirNames (pathOf "root" r) = .ok names → names.Nodup) ∧
      ((nodes brokenChild 2 "root").map (pathOf "root")).Nodup ∧
      ∃ s1 tr, Walk brokenChild nilVisitor 2 "root" () = some (none, s1, tr) ∧
        visits tr =
          (nodes brokenChild 2 "root").map
            (fun r => (pathOf "root" r, shown brokenChild (pathOf "root" r))) ∧
        (∀ p, Reachable brokenChild "root" p → (visitedPaths tr).count p = 1) :=
  ⟨fun _ _ _ _ => rfl, by decide, fun _ names _ h => brokenChild_names_nodup _ names h,
    by decide,
    (Walk_visits_every_reachable_node_once brokenChild nilVisitor 2 "root" ()
      (fun _ _ _ _ => rfl) (by decide)
      (fun _ names _ h => brokenChild_names_nodup _ names h)).imp fun _ h1 =>
        h1.imp fun _ h2 => ⟨h2.1, h2.2.2.2.1, h2.2.2.2.2.2 (by decide)⟩⟩

/-- C6: on a finite tree where every stat and every listing succeeds, with a
visitor that always returns nil, the paths passed to the visitor are the
depth-first pre-order of the tree: a directory first, then its children in
listing order, the whole pre-order of one child before the next sibling, and a
node that is not a directory alone; for `root(dir) -> [x(file), y(dir) ->
[z(file)]]` the paths are `[root, root/x, root/y, root/y/z]`. -/
theorem Walk_visits_in_preorder {σ : Type} (acc : Accessor) (walkFn : WalkFunc σ) (d : Nat)
    (root : String) (s : σ) (hnil : ∀ s p i e, (walkFn s p i e).1 = none)
    (hfin : finiteTree acc d root = true)
    (_hok : ∀ p, Reachable acc root p → ∃ info, acc.SvnStat p = .ok info ∧
      (info.IsDir = true → ∃ names, acc.readDirNames p = .ok names)) :
    (∃ s1 tr, Walk acc walkFn d root s = some (none, s1, tr) ∧
        visitedPaths tr = preorder acc d root) ∧
      (∀ (k : Nat) (dir : String) (info : SvnInfo) (names : List String),
        acc.SvnStat dir = .ok info → info.IsDir = true → acc.readDirNames dir = .ok names →
        preorder acc (k + 1) dir =
          dir :: names.flatMap fun name => preorder acc k (Join [dir, name])) ∧
      (∀ (k : Nat) (p : String) (info : SvnInfo),
        acc.SvnStat p = .ok info → info.IsDir = false → preorder acc (k + 1) p = [p]) ∧
      (Walk sampleTree nilVisitor 3 "root" ()).map (fun o => (o.1, visitedPaths o.2.2)) =
        some (none, ["root", "root/x", "root/y", "root/y/z"]) := by
  refine ⟨?_, ?_, ?_, by decide⟩
  · obtain ⟨s1, tr, hw, hv⟩ := Walk_nil_visits acc walkFn hnil d root hfin s
    exact ⟨s1, tr, hw, by simp [visitedPaths, hv, Function.comp_def]⟩
  · intro k dir info names hs hdir hl
    simp [preorder, hs, hdir, hl]
  · intro k p info hs hdir
    simp [preorder, hs, hdir]

theorem sampleTree_all_ok (p : String) (h : Reachable sampleTree "root" p) :
    ∃ info, sampleTree.SvnStat p = .ok info ∧
      (info.IsDir = true → ∃ names, sampleTree.readDirNames p = .ok names) := by
  have hm := (mem_preorder_iff_reachable sampleTree 3 "root" (by decide) p).mpr h
  have hp : preorder sampleTree 3 "root" = ["root", "root/x", "root/y", "root/y/z"] := by
    decide
  rw [hp] at hm
  simp only [List.mem_cons, List.mem_singleton, List.not_mem_nil, or_false] at hm
  rcases hm with hm | hm | hm | hm
  · subst hm; exact ⟨mkInfo "directory", by decide, fun _ => ⟨["x", "y"], by decide⟩⟩
  · subst hm; exact ⟨mkInfo "file", by decide, fun hd => absurd hd (by decide)⟩
  · subst hm; exact ⟨mkInfo "directory", by decide, fun _ => ⟨["z"], by decide⟩⟩
  · subst hm; exact ⟨mkInfo "file", by decide, fun hd => absurd hd (by decide)⟩

theorem Walk_visits_in_preorder_witness :
    (∀ s p i e, (nilVisitor s p i e).1 = none) ∧ finiteTree sampleTree 3 "root" = true ∧
      (∀ p, Reachable sampleTree "root" p → ∃ info, sampleTree.SvnStat p = .ok info ∧
        (info.IsDir = true → ∃ names, sampleTree.readDirNames p = .ok names)) ∧
      ∃ s1 tr, Walk sampleTree nilVisitor 3 "root" () = some (none, s1, tr) ∧
        visitedPaths tr = preorder sampleTree 3 "root" :=
  ⟨fun _ _ _ _ => rfl, by decide, sampleTree_all_ok,
    (Walk_visits_in_preorder sampleTree nilVisitor 3 "root" () (fun _ _ _ _ => rfl)
      (by decide) sampleTree_all_ok).1⟩

/-! ## `Join` -/

/-- C9 (evaluation of the code): `Join("a", "", "c")` is `"a//c"`: the empty
element in the middle is kept and the separator is doubled, so the result is not
the non-empty elements joined by a single `"/"`, which would be `"a/c"`. -/
theorem Join_keeps_inner_empty_element :
    Join ["a", "", "c"] = "a//c" ∧ joinNonEmpty ["a", "", "c"] = "a/c" ∧
      Join ["a", "", "c"] ≠ joinNonEmpty ["a", "", "c"] := by
  decide

/-- C10: for a non-empty parent path `p` and a non-empty child name `n`,
`Join(p, n)` is `p`, a slash, `n`; and `Join("a/b", "c") = "a/b/c"`. -/
theorem Join_parent_child (p n : String) (hp : p ≠ "") (_hn : n ≠ "") :
    Join [p, n] = p ++ "/" ++ n ∧ Join ["a/b", "c"] = "a/b/c" := by
  refine ⟨?_, by decide⟩
  simp [Join, hp, String.intercalate, String.intercalate.go]

theorem Join_parent_child_witness :
    ("trunk" : String) ≠ "" ∧ ("src" : String) ≠ "" ∧
      Join ["trunk", "src"] = "trunk" ++ "/" ++ "src" :=
  ⟨by decide, by decide, (Join_parent_child "trunk" "src" (by decide) (by decide)).1⟩

/-! ## `SkipDir` at the root and on a file -/

theorem after_nil {σ : Type} (o : Outcome σ) : Outcome.after [] o = o := by
  cases o with
  | none => rfl
  | some v => rfl

theorem after_after {σ : Type} (a b : List Event) (o : Outcome σ) :
    Outcome.after a (Outcome.after b o) = Outcome.after (a ++ b) o := by
  cases o with
  | none => rfl
  | some v => simp [Outcome.after]

theorem after_eq_some {σ : Type} {a : List Event} {o : Outcome σ} {r : Option Error} {s : σ}
    {tr : List Event} (h : Outcome.after a o = some (r, s, tr)) :
    ∃ tr0, o = some (r, s, tr0) ∧ tr = a ++ tr0 := by
  cases o with
  | none => cases h
  | some v =>
    obtain ⟨r0, s0, tr0⟩ := v
    simp only [Outcome.after, Option.some.injEq, Prod.mk.injEq] at h
    obtain ⟨h1, h2, h3⟩ := h
    subst h1 h2 h3
    exact ⟨tr0, rfl, rfl⟩

theorem walkNames_cons_none {σ : Type} (acc : Accessor) (walkFn : WalkFunc σ)
    (recur : String → SvnInfo → σ → Outcome σ) (path name : String) (rest : List String)
    (fi : SvnInfo) (s : σ) (hs : acc.SvnStat (Join [path, name]) = .ok fi)
    (hr : recur (Join [path, name]) fi s = none) :
    walkNames acc walkFn recur path (name :: rest) s = none := by
  simp only [walkNames, hs, hr]

theorem walkNames_append {σ : Type} (acc : Accessor) (walkFn : WalkFunc σ)
    (recur : String → SvnInfo → σ → Outcome σ) (path : String) (l : List String) :
    ∀ (pre : List String) (s s1 : σ) (tr : List Event),
      walkNames acc walkFn recur path pre s = some (none, s1, tr) →
      walkNames acc walkFn recur path (pre ++ l) s =
        Outcome.after tr (walkNames acc walkFn recur path l s1) := by
  intro pre
  induction pre with
  | nil =>
    intro s s1 tr h
    simp only [walkNames, Option.some.injEq, Prod.mk.injEq] at h
    obtain ⟨_, h2, h3⟩ := h
    subst h2 h3
    rw [List.nil_append, after_nil]
  | cons name pre ih =>
    intro s s1 tr h
    rw [List.cons_append]
    cases hs : acc.SvnStat (Join [path, name]) with
    | error err =>
      have hu := walkNames_cons_error acc walkFn recur path name pre err s hs
      have hu2 := walkNames_cons_error acc walkFn recur path name (pre ++ l) err s hs
      by_cases hf : (walkFn s (Join [path, name]) none (some err)).1 ≠ none ∧
          (walkFn s (Join [path, name]) none (some err)).1 ≠ some Error.SkipDir
      · rw [if_pos hf, h] at hu
        simp only [Option.some.injEq, Prod.mk.injEq] at hu
        exact absurd hu.1.symm hf.1
      · rw [if_neg hf, h] at hu
        rw [if_neg hf] at hu2
        obtain ⟨tr0, h0, htr⟩ := after_eq_some hu.symm
        rw [hu2, ih _ _ _ h0, after_after, htr]
    | ok fi =>
      cases hrec : recur (Join [path, name]) fi s with
      | none =>
        rw [walkNames_cons_none acc walkFn recur path name pre fi s hs hrec] at h
        cases h
      | some v =>
        obtain ⟨err, s2, tr2⟩ := v
        have hu := walkNames_cons_ok acc walkFn recur path name pre fi s s2 err tr2 hs hrec
        have hu2 :=
          walkNames_cons_ok acc walkFn recur path name (pre ++ l) fi s s2 err tr2 hs hrec
        by_cases hf : err ≠ none ∧ (fi.IsDir = false ∨ err ≠ some Error.SkipDir)
        · rw [if_pos hf, h] at hu
          simp only [Option.some.injEq, Prod.mk.injEq] at hu
          exact absurd hu.1.symm hf.1
        · rw [if_neg hf, h] at hu
          rw [if_neg hf] at hu2
          obtain ⟨tr0, h0, htr⟩ := after_eq_some hu.symm
          rw [hu2, ih _ _ _ h0, after_after, htr]

/-- C18: a `Walk` that returns never returns `SkipDir`: after a failed stat of
the root its result is what the visitor returned, after a successful one what
`walk` of the root returned, in both cases with `SkipDir` turned into nil and
every other result (nil or another error) unchanged. -/
theorem Walk_never_returns_SkipDir {σ : Type} (acc : Accessor) (walkFn : WalkFunc σ)
    (fuel : Nat) (root : String) (s s1 : σ) (r : Option Error) (tr : List Event)
    (h : Walk acc walkFn fuel root s = some (r, s1, tr)) :
    r ≠ some Error.SkipDir ∧
      (∀ e, acc.SvnStat root = .error e →
        ((walkFn s root none (some e)).1 = some Error.SkipDir → r = none) ∧
          ((walkFn s root none (some e)).1 ≠ some Error.SkipDir →
            r = (walkFn s root none (some e)).1)) ∧
      (∀ info, acc.SvnStat root = .ok info →
        ∃ err tr1, walk acc walkFn fuel root info s = some (err, s1, tr1) ∧
          (err = some Error.SkipDir → r = none) ∧ (err ≠ some Error.SkipDir → r = err)) := by
  cases hs : acc.SvnStat root with
  | error e =>
    rw [Walk_of_stat_error acc walkFn fuel root e s hs] at h
    simp only [Option.some.injEq, Prod.mk.injEq] at h
    obtain ⟨hr, _, _⟩ := h
    refine ⟨?_, ?_, ?_⟩
    · rw [← hr]
      by_cases hv : (walkFn s root none (some e)).1 = some Error.SkipDir
      · rw [if_pos hv]
        simp
      · rw [if_neg hv]
        exact hv
    · intro e1 he1
      cases he1
      constructor
      · intro hv
        rw [← hr, if_pos hv]
      · intro hv
        rw [← hr, if_neg hv]
    · intro info hi
      cases hi
  | ok info =>
    cases hw : walk acc walkFn fuel root info s with
    | none =>
      simp only [Walk, hs, hw] at h
      cases h
    | some v =>
      obtain ⟨err, s2, tr2⟩ := v
      rw [Walk_of_walk acc walkFn fuel root info s s2 err tr2 hs hw] at h
      simp only [Option.some.injEq, Prod.mk.injEq] at h
      obtain ⟨hr, hs2, _⟩ := h
      subst hs2
      refine ⟨?_, ?_, ?_⟩
      · rw [← hr]
        by_cases hv : err = some Error.SkipDir
        · rw [if_pos hv]
          simp
        · rw [if_neg hv]
          exact hv
      · intro e he
        cases he
      · intro info1 hi
        cases hi
        refine ⟨err, tr2, hw, ?_, ?_⟩
        · intro hv
          rw [← hr, if_pos hv]
        · intro hv
          rw [← hr, if_neg hv]

theorem Walk_never_returns_SkipDir_witness :
    Walk lockedRoot (skipAt "root") 1 "root" () =
        some (none, (),
          [Event.stat "root", Event.list "root",
           Event.visit "root" (some (mkInfo "directory")) (some Error.ErrAccessForbidden)
             (some Error.SkipDir)]) ∧
      (none : Option Error) ≠ some Error.SkipDir :=
  ⟨by decide,
    (Walk_never_returns_SkipDir lockedRoot (skipAt "root") 1 "root" () () none
      [Event.stat "root", Event.list "root",
       Event.visit "root" (some (mkInfo "directory")) (some Error.ErrAccessForbidden)
         (some Error.SkipDir)] (by decide)).1⟩

/-- C19: in a directory `P` whose listing succeeded, when the loop over the
names has passed the names `pre` and the visitor returns `SkipDir` on the next
child, a non-directory whose stat succeeded, `walk` of `P` ends there and
returns `SkipDir`: its calls stop at the visit of that child, so no later
sibling is stat'ed or visited; the loop of the parent of `P` goes on with the
sibling after `P`; and `Walk` returns nil when `P` is the root. -/
theorem skip_on_file_skips_rest_of_directory {σ : Type} (acc : Accessor)
    (walkFn : WalkFunc σ) (fuel : Nat) (P name : String) (pinfo fi : SvnInfo)
    (pre rest : List String) (s0 s s2 s1 : σ) (trpre : List Event)
    (hdir : pinfo.IsDir = true) (hl : acc.readDirNames P = .ok (pre ++ name :: rest))
    (hvP : walkFn s0 P (some pinfo) none = (none, s))
    (hpre : walkNames acc walkFn (walk acc walkFn (fuel + 1)) P pre s = some (none, s2, trpre))
    (hs : acc.SvnStat (Join [P, name]) = .ok fi) (hfile : fi.IsDir = false)
    (hv : walkFn s2 (Join [P, name]) (some fi) none = (some Error.SkipDir, s1)) :
    walk acc walkFn (fuel + 2) P pinfo s0 =
        some (some Error.SkipDir, s1,
          [Event.list P, Event.visit P (some pinfo) none none] ++
            (trpre ++
              [Event.stat (Join [P, name]),
               Event.visit (Join [P, name]) (some fi) none (some Error.SkipDir)])) ∧
      (∀ (G pname : String) (prest : List String), Join [G, pname] = P →
        acc.SvnStat P = .ok pinfo →
        walkNames acc walkFn (walk acc walkFn (fuel + 2)) G (pname :: prest) s0 =
          Outcome.after
            (Event.stat P ::
              ([Event.list P, Event.visit P (some pinfo) none none] ++
                (trpre ++
                  [Event.stat (Join [P, name]),
                   Event.visit (Join [P, name]) (some fi) none (some Error.SkipDir)])))
            (walkNames acc walkFn (walk acc walkFn (fuel + 2)) G prest s1)) ∧
      (acc.SvnStat P = .ok pinfo →
        Walk acc walkFn (fuel + 2) P s0 =
          some (none, s1,
            Event.stat P ::
              ([Event.list P, Event.visit P (some pinfo) none none] ++
                (trpre ++
                  [Event.stat (Join [P, name]),
                   Event.visit (Join [P, name]) (some fi) none (some Error.SkipDir)])))) := by
  have hchild : walk acc walkFn (fuel + 1) (Join [P, name]) fi s2 =
      some (some Error.SkipDir, s1,
        [Event.visit (Join [P, name]) (some fi) none (some Error.SkipDir)]) := by
    rw [walk_succ_leaf acc walkFn fuel (Join [P, name]) fi s2 hfile, hv]
  have hloop : walkNames acc walkFn (walk acc walkFn (fuel + 1)) P (name :: rest) s2 =
      some (some Error.SkipDir, s1,
        [Event.stat (Join [P, name]),
         Event.visit (Join [P, name]) (some fi) none (some Error.SkipDir)]) := by
    rw [walkNames_cons_ok acc walkFn _ P name rest fi s2 s1 _ _ hs hchild, if_pos]
    exact ⟨by simp, Or.inl hfile⟩
  have hw : walk acc walkFn (fuel + 2) P pinfo s0 =
      some (some Error.SkipDir, s1,
        [Event.list P, Event.visit P (some pinfo) none none] ++
          (trpre ++
            [Event.stat (Join [P, name]),
             Event.visit (Join [P, name]) (some fi) none (some Error.SkipDir)])) := by
    rw [walk_succ_dir acc walkFn (fuel + 1) P pinfo _ s0 hdir hl, hvP, if_neg (by simp),
      walkNames_append acc walkFn _ P (name :: rest) pre s s2 trpre hpre, hloop]
    rfl
  refine ⟨hw, ?_, ?_⟩
  · intro G pname prest hj hsP
    rw [← hj] at hsP hw
    rw [walkNames_cons_ok acc walkFn _ G pname prest pinfo s0 s1 _ _ hsP hw, if_neg]
    · rw [hj]
    · simp [hdir]
  · intro hsP
    rw [Walk_of_walk acc walkFn (fuel + 2) P pinfo s0 s1 _ _ hsP hw]
    simp

theorem skip_on_file_skips_rest_of_directory_witness :
    (mkInfo "directory").IsDir = true ∧ sampleTree.readDirNames "root" = .ok ([] ++ "x" :: ["y"]) ∧
      sampleTree.SvnStat (Join ["root", "x"]) = .ok (mkInfo "file") ∧
      (mkInfo "file").IsDir = false ∧
      Walk sampleTree (skipAt "root/x") 2 "root" () =
        some (none, (),
          Event.stat "root" ::
            ([Event.list "root", Event.visit "root" (some (mkInfo "directory")) none none] ++
              ([] ++
                [Event.stat (Join ["root", "x"]),
                 Event.visit (Join ["root", "x"]) (some (mkInfo "file")) none
                   (some Error.SkipDir)]))) :=
  ⟨by decide, by decide, by decide, by decide,
    (skip_on_file_skips_rest_of_directory sampleTree (skipAt "root/x") 0 "root" "x"
      (mkInfo "directory") (mkInfo "file") [] ["y"] () () () () [] (by decide) (by decide)
      (by decide) (by decide) (by decide) (by decide) (by decide)).2.2 (by decide)⟩

/-! ## The node accessor -/

theorem replaceGo_backslash (s : List Char) :
    replaceGo ['\\'] ['/'] 0 s = s.map fun c => if c = '\\' then '/' else c := by
  induction s with
  | nil => rfl
  | cons c cs ih =>
    by_cases h : c = '\\'
    · subst h
      simp [replaceGo, List.isPrefixOf, ih]
    · have h1 : ('\\' == c) = false := by
        simp only [beq_eq_false_iff_ne, ne_eq]
        exact fun h2 => h h2.symm
      simp [replaceGo, List.isPrefixOf, ih, h, h1]

theorem Clean_data (path : String) :
    (Clean path).data = path.data.map fun c => if c = '\\' then '/' else c := by
  show replaceGo ['\\'] ['/'] 0 path.data = _
  exact replaceGo_backslash path.data

/-- C11: for a node whose kind is not `"directory"`, `Dirs()` fails with
`ErrNotDirectory`, returns no names and hands no command to
`execCommandContext`; `IsDir()` is true exactly when the kind is
`"directory"`. -/
theorem Dirs_of_non_directory (exec : ExecFn) (i : SvnInfo) (h : i.nodeKind ≠ "directory") :
    i.Dirs exec = (.error Error.ErrNotDirectory, []) ∧ i.IsDir = false ∧
      ∀ j : SvnInfo, j.IsDir = true ↔ j.nodeKind = "directory" := by
  have hj : ∀ j : SvnInfo, j.IsDir = true ↔ j.nodeKind = "directory" := by
    intro j
    simp [SvnInfo.IsDir]
  have hd : i.IsDir = false := by
    cases hb : i.IsDir with
    | false => rfl
    | true => exact absurd ((hj i).mp hb) h
  exact ⟨by simp [SvnInfo.Dirs, hd], hd, hj⟩

theorem Dirs_of_non_directory_witness :
    (mkInfo "file").nodeKind ≠ "directory" ∧
      (mkInfo "file").Dirs (prints svnLsRunResult) = (.error Error.ErrNotDirectory, []) :=
  ⟨by decide, (Dirs_of_non_directory (prints svnLsRunResult) (mkInfo "file") (by decide)).1⟩

/-- C12: `Clean` replaces every backslash by a forward slash and changes nothing
else: the result has the same length, contains no backslash, agrees with the
input at every position that does not hold a backslash, and is the input when
the input has no backslash. -/
theorem Clean_replaces_backslashes (path : String) :
    ((Clean path).data = path.data.map fun c => if c = '\\' then '/' else c) ∧
      (Clean path).length = path.length ∧
      '\\' ∉ (Clean path).data ∧
      (∀ (i : Nat) (h : i < path.data.length),
        path.data[i] ≠ '\\' → (Clean path).data[i]? = some path.data[i]) ∧
      ('\\' ∉ path.data → Clean path = path) := by
  have hd := Clean_data path
  refine ⟨hd, ?_, ?_, ?_, ?_⟩
  · show (Clean path).data.length = path.data.length
    rw [hd, List.length_map]
  · rw [hd]
    intro hmem
    obtain ⟨c, _, hc⟩ := List.mem_map.mp hmem
    by_cases h : c = '\\'
    · rw [if_pos h] at hc
      exact absurd hc (by decide)
    · rw [if_neg h] at hc
      exact h hc
  · intro i h hne
    rw [hd, List.getElem?_map, List.getElem?_eq_getElem h]
    simp [hne]
  · intro hno
    apply String.ext
    rw [hd]
    conv_rhs => rw [← List.map_id path.data]
    apply List.map_congr_left
    intro c hc
    have h : c ≠ '\\' := fun h1 => hno (h1 ▸ hc)
    simp [h]

/-- Outcome of a command that ran (its stdout pipe opened), for `svnStat` when
the scan of the lines handled so far gives a node, and for `readDirNames`:
deadline exceeded gives the timed-out error; otherwise a failed command whose
stderr contains `"E175013"` gives `ErrAccessForbidden`; otherwise a failed
command gives the command's own error; a node or a name list is returned only
when the deadline was kept and the command did not fail, and it is made from
the lines handled so far. -/
theorem outcome_of_run (exec : ExecFn) (url : String) (rs rl : CmdResult)
    (info : SvnInfo) (hrs : exec ["svn", "info", Clean url] = rs)
    (hrl : exec ["svn", "ls", url] = rl) (hps : rs.pipeFails = false)
    (hpl : rl.pipeFails = false)
    (hscan : scanInfo zeroInfo (rs.stdout.take rs.scanned) = some info) :
    ((rs.deadlineExceeded = true →
          (svnStat exec url).1 = some (.error (Error.errorf "svn info command timed out"))) ∧
        (∀ id, rs.deadlineExceeded = false → rs.waitErr = some id →
          stringsContains rs.stderr "E175013" = true →
          (svnStat exec url).1 = some (.error Error.ErrAccessForbidden)) ∧
        (∀ id, rs.deadlineExceeded = false → rs.waitErr = some id →
          stringsContains rs.stderr "E175013" = false →
          (svnStat exec url).1 = some (.error (Error.foreign id))) ∧
        (∀ node, (svnStat exec url).1 = some (.ok node) →
          rs.deadlineExceeded = false ∧ rs.waitErr = none ∧ node = info)) ∧
      ((rl.deadlineExceeded = true →
          (readDirNames exec url).1 = .error (Error.errorf "svn ls command timed out")) ∧
        (∀ id, rl.deadlineExceeded = false → rl.waitErr = some id →
          stringsContains rl.stderr "E175013" = true →
          (readDirNames exec url).1 = .error Error.ErrAccessForbidden) ∧
        (∀ id, rl.deadlineExceeded = false → rl.waitErr = some id →
          stringsContains rl.stderr "E175013" = false →
          (readDirNames exec url).1 = .error (Error.foreign id)) ∧
        (∀ names, (readDirNames exec url).1 = .ok names →
          rl.deadlineExceeded = false ∧ rl.waitErr = none ∧
            names = scanNames (rl.stdout.take rl.scanned))) := by
  refine ⟨⟨?_, ?_, ?_, ?_⟩, ⟨?_, ?_, ?_, ?_⟩⟩
  · intro hd
    simp [svnStat, hrs, hps, hscan, hd]
  · intro id hd hw hc
    simp [svnStat, hrs, hps, hscan, hd, hw, hc]
  · intro id hd hw hc
    simp [svnStat, hrs, hps, hscan, hd, hw, hc]
  · intro node hn
    cases hd : rs.deadlineExceeded with
    | true => simp [svnStat, hrs, hps, hscan, hd] at hn
    | false =>
      cases hw : rs.waitErr with
      | some id =>
        cases hc : stringsContains rs.stderr "E175013" <;>
          simp [svnStat, hrs, hps, hscan, hd, hw, hc] at hn
      | none =>
        simp [svnStat, hrs, hps, hscan, hd, hw] at hn
        exact ⟨rfl, rfl, hn.symm⟩
  · intro hd
    simp [readDirNames, hrl, hpl, hd]
  · intro id hd hw hc
    simp [readDirNames, hrl, hpl, hd, hw, hc]
  · intro id hd hw hc
    simp [readDirNames, hrl, hpl, hd, hw, hc]
  · intro names hn
    cases hd : rl.deadlineExceeded with
    | true => simp [readDirNames, hrl, hpl, hd] at hn
    | false =>
      cases hw : rl.waitErr with
      | some id =>
        cases hc : stringsContains rl.stderr "E175013" <;>
          simp [readDirNames, hrl, hpl, hd, hw, hc] at hn
      | none =>
        simp [readDirNames, hrl, hpl, hd, hw] at hn
        exact ⟨rfl, rfl, hn.symm⟩

/-- C13 (evaluation of the code): for a command that prints the line `URL`,
fails with exit error 1 and has `E175013` on stderr, `readDirNames` returns
`ErrAccessForbidden`, and so does `svnStat` in a run where the goroutine has not
handled the line; in a run where it has, `kv[1]` is out of range for the bare
key, the scan panics and `svnStat` returns no error at all. -/
theorem svnStat_panics_instead_of_classifying :
    stringsContains svnStatWhereAccessForbiddenRunResult "E175013" = true ∧
      (readDirNames (forbiddenAfterBareKey 1) "https://host/svn/TestRepo").1 =
        .error Error.ErrAccessForbidden ∧
      (svnStat (forbiddenAfterBareKey 0) "https://host/svn/TestRepo").1 =
        some (.error Error.ErrAccessForbidden) ∧
      setField zeroInfo "URL" = none ∧
      (svnStat (forbiddenAfterBareKey 1) "https://host/svn/TestRepo").1 = none := by
  decide

/-- C14 (evaluation of the code): for the output of `TestSvnStat` the node has
`Name()` `"TestRepo"` and `IsDir()` true; for an output whose path line is
`Path: Re: hello.txt` the line is split at every `": "` and the second field is
taken, so `Name()` is `"Re"` and not the text after `"Path: "`. -/
theorem svnStat_cuts_value_at_separator :
    (svnStat (prints svnInfoRunResult) "https://host/svn/TestRepo").1.map
        (fun r => r.map fun i => (i.Name, i.IsDir)) = some (.ok ("TestRepo", true)) ∧
      stringsSplit "Path: Re: hello.txt" ": " = ["Path", "Re", "hello.txt"] ∧
      (svnStat (prints ["Path: Re: hello.txt", "Node Kind: file"])
          "https://host/svn/TestRepo").1.map
        (fun r => r.map fun i => (i.Name, i.IsDir)) = some (.ok ("Re", false)) ∧
      ("Re" : String) ≠ "Re: hello.txt" := by
  decide

/-- C16 (evaluation of the code): `svnStat` hands `Clean(url)` to the command,
`readDirNames` hands `url` itself: for `trunk\src` the listing command gets the
path with its backslash, and `walk` passes its path to `readDirNames` as it
is. -/
theorem readDirNames_passes_raw_path (exec : ExecFn) :
    (svnStat exec "trunk\\src").2 = [["svn", "info", "trunk/src"]] ∧
      (readDirNames exec "trunk\\src").2 = [["svn", "ls", "trunk\\src"]] ∧
      Clean "trunk\\src" = "trunk/src" ∧ "trunk\\src" ≠ Clean "trunk\\src" ∧
      (∀ url, (readDirNames exec url).2 = [["svn", "ls", url]]) ∧
      Walk backslashRoot nilVisitor 1 "trunk\\src" () =
        some (none, (),
          [Event.stat "trunk\\src", Event.list "trunk\\src",
           Event.visit "trunk\\src" (some (mkInfo "directory"))
             (some Error.ErrAccessForbidden) none]) := by
  refine ⟨?_, rfl, by decide, by decide, fun _ => rfl, by decide⟩
  have h : Clean "trunk\\src" = "trunk/src" := by decide
  simp [svnStat, h]

/-- C17 (evaluation of the code): for the listing output of `TestSvnDirs`,
`trunk/`, `tags/`, `branches/`, `readDirNames` returns `[trunk, tags, branches]`,
the order of the output, which is not ascending. -/
theorem readDirNames_keeps_output_order :
    (readDirNames (prints svnLsRunResult) "https://host/svn/TestRepo").1 =
        .ok ["trunk", "tags", "branches"] ∧
      stringsAreSorted ["trunk", "tags", "branches"] = false ∧
      lexLE "trunk".data "tags".data = false := by
  decide

/-- C20 (evaluation of the code): for the output line `Path`, without `": "`,
the split has the one field `Path`, the key is known and `kv[1]` is out of
range: the scan panics and `svnStat` gives no result. -/
theorem scan_panics_on_bare_key :
    stringsSplit "Path" ": " = ["Path"] ∧ (stringsSplit "Path" ": ")[1]? = none ∧
      setField zeroInfo "Path" = none ∧ setField zeroInfo "Node Kind" = none ∧
      (svnStat (prints ["Path"]) "https://host/svn/TestRepo").1 = none := by
  decide

theorem head?_dropWhile_false {α : Type} (p : α → Bool) (l : List α) (x : α)
    (h : (l.dropWhile p).head? = some x) : p x = false := by
  induction l with
  | nil => simp at h
  | cons y ys ih =>
    by_cases hy : p y = true
    · rw [List.dropWhile_cons, if_pos hy] at h
      exact ih h
    · rw [List.dropWhile_cons, if_neg hy] at h
      simp at h
      rw [← h]
      simpa using hy

theorem slash_of_cutset (c : Char) (h : "/".data.contains c = true) : c = '/' := by
  have h1 : ("/" : String).data = ['/'] := rfl
  rw [h1] at h
  simpa using h

theorem stringsTrim_slash_parts (line : String) :
    ∃ a b : List Char, line.data = a ++ (stringsTrim line "/").data ++ b ∧
      (∀ c ∈ a, c = '/') ∧ (∀ c ∈ b, c = '/') ∧
      (stringsTrim line "/").data.head? ≠ some '/' ∧
      (stringsTrim line "/").data.getLast? ≠ some '/' := by
  let p : Char → Bool := fun c => "/".data.contains c
  have hp : p '/' = true := by decide
  have hm : line.data.dropWhile p =
      ((line.data.dropWhile p).reverse.dropWhile p).reverse ++
        ((line.data.dropWhile p).reverse.takeWhile p).reverse := by
    rw [← List.reverse_append, List.takeWhile_append_dropWhile, List.reverse_reverse]
  have hlast : (((line.data.dropWhile p).reverse.dropWhile p).reverse).getLast? ≠ some '/' := by
    rw [List.getLast?_reverse]
    intro h
    have := head?_dropWhile_false p _ _ h
    rw [hp] at this
    cases this
  have hhead : (((line.data.dropWhile p).reverse.dropWhile p).reverse).head? ≠ some '/' := by
    intro h
    have h2 : (line.data.dropWhile p).head? = some '/' := by
      rw [hm, List.head?_append, h]
      rfl
    have := head?_dropWhile_false p _ _ h2
    rw [hp] at this
    cases this
  refine ⟨line.data.takeWhile p, ((line.data.dropWhile p).reverse.takeWhile p).reverse,
    ?_, ?_, ?_, hhead, hlast⟩
  · show line.data = line.data.takeWhile p ++
        ((line.data.dropWhile p).reverse.dropWhile p).reverse ++
        ((line.data.dropWhile p).reverse.takeWhile p).reverse
    rw [List.append_assoc, ← hm, List.takeWhile_append_dropWhile]
  · intro c hc
    exact slash_of_cutset c (List.mem_takeWhile_imp hc)
  · intro c hc
    exact slash_of_cutset c (List.mem_takeWhile_imp (List.mem_reverse.mp hc))

theorem scanNames_eq (lines : List String) :
    scanNames lines = (lines.filter fun l => l ≠ "").map fun l => stringsTrim l "/" := by
  induction lines with
  | nil => rfl
  | cons l ls ih =>
    by_cases h : l = ""
    · simp [scanNames, h, ih]
    · simp [scanNames, h, ih]

/-- C15 (evaluation of the code): `readDirNames` returns after `cmd.Wait`
without waiting for the goroutine that scans stdout.  For the listing output of
`TestSvnDirs`, `trunk/`, `tags/`, `branches/`, and a command that succeeds, a
run in which the goroutine has handled no line yet returns the empty name list
with a nil error, and one in which it has handled one line returns `[trunk]`;
only a run in which it has handled all three lines returns
`[trunk, tags, branches]`.  `Dirs()` of a directory node returns the same, where
`TestSvnDirs` expects a list that is not empty. -/
theorem readDirNames_returns_before_scan_ends :
    (readDirNames (printsUpTo 0 svnLsRunResult) "https://host/svn/TestRepo").1 = .ok [] ∧
      (readDirNames (printsUpTo 1 svnLsRunResult) "https://host/svn/TestRepo").1 =
        .ok ["trunk"] ∧
      (readDirNames (printsUpTo 3 svnLsRunResult) "https://host/svn/TestRepo").1 =
        .ok ["trunk", "tags", "branches"] ∧
      ((mkInfo "directory").Dirs (printsUpTo 0 svnLsRunResult)).1 = .ok [] := by
  decide

end Svnpath
